import Mathlib

/-!
Verification of the design-token transformation core of the
`desing-token-manager-plugin` repository against its specification.

The TypeScript sources are shallowly embedded:
* JavaScript numbers are modelled as `JNum := Option ℚ`, where `none`
  models `NaN` (the only non-finite value produced by the code paths
  under study); exact rational arithmetic stands in for IEEE doubles.
* Strings are Lean `String`s (sequences of characters; the JavaScript
  UTF-16 length/index model coincides for the inputs considered here).
* Fallible code (a JavaScript `throw`) is modelled with `Except Unit`.
* The floating-point sRGB→OKLCH conversion (`rgbaToOklch`, which uses
  `Math.pow`, `Math.cbrt`, `Math.atan2`) is transcendental and is not
  modelled; the functions that dispatch to it take it as a parameter.
-/

namespace DTM

/-- A JavaScript number: `none` models `NaN`. -/
abbrev JNum := Option ℚ

/-- Whitespace as matched by the JavaScript `\s` class (ASCII portion). -/
def isJsWs (c : Char) : Bool :=
  c = ' ' || c = '\t' || c = '\n' || c = '\r' || c = '\x0b' || c = '\x0c'

/-- The JavaScript `\w` class: `[A-Za-z0-9_]`. -/
def isWordChar (c : Char) : Bool :=
  c.isAlphanum || c = '_'

def isHexDigitChar (c : Char) : Bool :=
  c.isDigit || ('a' ≤ c && c ≤ 'f') || ('A' ≤ c && c ≤ 'F')

def hexDigitVal (c : Char) : ℕ :=
  if c.isDigit then c.toNat - '0'.toNat
  else if 'a' ≤ c && c ≤ 'f' then c.toNat - 'a'.toNat + 10
  else if 'A' ≤ c && c ≤ 'F' then c.toNat - 'A'.toNat + 10
  else 0

/-- The numeric value of a decimal digit character. -/
def digitVal (c : Char) : ℕ := c.toNat - '0'.toNat

def digitsToNat (cs : List Char) : ℕ :=
  cs.foldl (fun acc c => acc * 10 + digitVal c) 0

def hexDigitsToNat (cs : List Char) : ℕ :=
  cs.foldl (fun acc c => acc * 16 + hexDigitVal c) 0

/-- JavaScript `parseInt(s, 16)`: skip whitespace, optional sign, optional
`0x`/`0X` prefix, then the longest run of hexadecimal digits; `NaN` (here
`none`) when that run is empty. -/
def parseIntHex (s : String) : JNum :=
  let cs0 := s.data.dropWhile isJsWs
  let (sign, cs1) : ℤ × List Char :=
    match cs0 with
    | '-' :: rest => (-1, rest)
    | '+' :: rest => (1, rest)
    | _ => (1, cs0)
  let cs2 :=
    match cs1 with
    | '0' :: 'x' :: rest => rest
    | '0' :: 'X' :: rest => rest
    | _ => cs1
  let digits := cs2.takeWhile isHexDigitChar
  if digits.isEmpty then none
  else some ((sign * (hexDigitsToNat digits : ℤ) : ℤ) : ℚ)

/-- Exponent suffix of a JavaScript numeric literal (`e`/`E` already
consumed by the caller, which passes the characters after it and the
fallback list to restore when no digits follow). -/
def parseExpTail (afterE orig : List Char) : ℤ × List Char :=
  let (s2, rest2) : ℤ × List Char :=
    match afterE with
    | '-' :: r => (-1, r)
    | '+' :: r => (1, r)
    | _ => (1, afterE)
  let ed := rest2.takeWhile Char.isDigit
  if ed.isEmpty then (0, orig) else (s2 * (digitsToNat ed : ℤ), rest2.drop ed.length)

/-- Unsigned decimal literal `digits [. digits] [e[sign]digits]`; returns the
value and the unconsumed characters, or `none` when no mantissa digit is
present. -/
def parseUnsignedDecimal (cs : List Char) : Option (ℚ × List Char) :=
  let intDigits := cs.takeWhile Char.isDigit
  let cs1 := cs.drop intDigits.length
  let (fracDigits, cs2) : List Char × List Char :=
    match cs1 with
    | '.' :: rest =>
      let fd := rest.takeWhile Char.isDigit
      (fd, rest.drop fd.length)
    | _ => ([], cs1)
  if intDigits.isEmpty && fracDigits.isEmpty then none
  else
    let mant : ℚ := (digitsToNat (intDigits ++ fracDigits) : ℚ) / (10 : ℚ) ^ fracDigits.length
    let (expo, cs3) : ℤ × List Char :=
      match cs2 with
      | 'e' :: rest => parseExpTail rest cs2
      | 'E' :: rest => parseExpTail rest cs2
      | _ => (0, cs2)
    some (mant * (10 : ℚ) ^ expo, cs3)

/-- JavaScript `parseFloat`: whitespace, optional sign, then the longest
valid decimal prefix; trailing garbage is ignored. (`Infinity` is not
modelled: it does not occur on the studied code paths.) -/
def jsParseFloat (s : String) : JNum :=
  let cs := s.data.dropWhile isJsWs
  match cs with
  | '-' :: rest => (parseUnsignedDecimal rest).map (fun p => -p.1)
  | '+' :: rest => (parseUnsignedDecimal rest).map (fun p => p.1)
  | _ => (parseUnsignedDecimal cs).map (fun p => p.1)

/-- JavaScript `Number(s)` on a string: trims, `""` is `0`, otherwise the
whole string must be a numeric literal (decimal or `0x` hexadecimal;
octal/binary literals and `Infinity` are not modelled — they do not occur
in the studied flows and map to `none`). -/
def jsNumber (s : String) : JNum :=
  let cs := ((s.data.dropWhile isJsWs).reverse.dropWhile isJsWs).reverse
  if cs.isEmpty then some 0
  else
    match cs with
    | '0' :: 'x' :: rest | '0' :: 'X' :: rest =>
      let ds := rest.takeWhile isHexDigitChar
      if ds.isEmpty || !(rest.drop ds.length).isEmpty then none
      else some ((hexDigitsToNat ds : ℕ) : ℚ)
    | _ =>
      let (sgn, cs') : ℚ × List Char :=
        match cs with
        | '-' :: r => (-1, r)
        | '+' :: r => (1, r)
        | _ => (1, cs)
      match parseUnsignedDecimal cs' with
      | some (v, []) => some (sgn * v)
      | _ => none

def natDecStr (n : ℕ) : String := ⟨Nat.toDigits 10 n⟩

def intDecStr (i : ℤ) : String :=
  if i < 0 then "-" ++ natDecStr i.natAbs else natDecStr i.toNat

/-- Rendering of a JavaScript number as a string (`${x}` / `String(x)`), for
the finite-decimal rationals that the studied flows produce: integers print
without a point, other decimal fractions print with the minimal number of
fractional digits (hence no trailing zeros), mirroring the shortest
round-trip printing of JavaScript doubles on such values.  Rationals with
no finite decimal form (unreachable in the studied flows) fall back to a
fraction rendering. -/
def numToStr (q : ℚ) : String :=
  if q.den = 1 then intDecStr q.num
  else
    match (List.range 20).find? (fun k => (q * (10 : ℚ) ^ (k + 1)).den = 1) with
    | some k =>
      let d := k + 1
      let m := (q * (10 : ℚ) ^ d).num
      let sign := if m < 0 then "-" else ""
      let digits := Nat.toDigits 10 m.natAbs
      let padded := List.replicate (d + 1 - digits.length) '0' ++ digits
      sign ++ String.mk (padded.take (padded.length - d)) ++ "." ++ String.mk (padded.drop (padded.length - d))
    | none => intDecStr q.num ++ "/" ++ natDecStr q.den

/-- JavaScript `x.toFixed(d)`: exactly `d` fractional digits.  Ties round
half-up here (`round`); JavaScript resolves ties through the binary double
representation, which agrees on the values exercised below. -/
def toFixedStr (q : ℚ) (d : ℕ) : String :=
  let m := round (q * (10 : ℚ) ^ d)
  if d = 0 then intDecStr m
  else
    let sign := if m < 0 then "-" else ""
    let digits := Nat.toDigits 10 m.natAbs
    let padded := List.replicate (d + 1 - digits.length) '0' ++ digits
    sign ++ String.mk (padded.take (padded.length - d)) ++ "." ++ String.mk (padded.drop (padded.length - d))

/-- `parseFloat(x.toFixed(d))` as a rational: round to `d` decimal places. -/
def roundTo (d : ℕ) (q : ℚ) : ℚ := (round (q * (10 : ℚ) ^ d) : ℚ) / (10 : ℚ) ^ d

/-- JavaScript `toLowerCase` (ASCII portion; the names in the studied flows
are ASCII). -/
def jsToLower (s : String) : String := ⟨s.data.map Char.toLower⟩

def jsTrim (s : String) : String :=
  ⟨((s.data.dropWhile isJsWs).reverse.dropWhile isJsWs).reverse⟩

/-- Is `sub` a contiguous sublist of `s`? -/
def listHasInfix (s sub : List Char) : Bool :=
  match s with
  | [] => sub.isEmpty
  | _ :: t => sub.isPrefixOf s || listHasInfix t sub

/-- JavaScript `String.prototype.includes`. -/
def jsIncludes (s sub : String) : Bool := listHasInfix s.data sub.data

/-- JavaScript `String.prototype.startsWith`. -/
def jsStartsWith (s pre : String) : Bool := pre.data.isPrefixOf s.data

/-- JavaScript `String.prototype.endsWith`. -/
def jsEndsWith (s suf : String) : Bool := suf.data.isSuffixOf s.data

/-- JavaScript `String.prototype.substring` (negative indices clamp to 0,
indices above the length clamp to the length, arguments swap when out of
order). -/
def jsSubstring (s : String) (start stop : ℤ) : String :=
  let len := s.data.length
  let clamp : ℤ → ℕ := fun i => if i < 0 then 0 else min i.toNat len
  let a := clamp start
  let b := clamp stop
  ⟨(s.data.take (max a b)).drop (min a b)⟩

def removeFirstChar : List Char → Char → List Char
  | [], _ => []
  | c :: rest, t => if c = t then rest else c :: removeFirstChar rest t

/-- JavaScript `s.replace(c, '')` with a one-character pattern: removes the
first occurrence only. -/
def jsReplaceFirst (s : String) (t : Char) : String := ⟨removeFirstChar s.data t⟩

/-- Replace every maximal run of whitespace (`/\s+/g`) by `r`. -/
def replaceWsRunsGo (r : List Char) : List Char → Bool → List Char
  | [], _ => []
  | c :: rest, inRun =>
    if isJsWs c then
      if inRun then replaceWsRunsGo r rest true
      else r ++ replaceWsRunsGo r rest true
    else c :: replaceWsRunsGo r rest false

def replaceWsRuns (r : String) (s : String) : String :=
  ⟨replaceWsRunsGo r.data s.data false⟩

/-- Association lookup, modelling both `Map.get` and plain object indexing
(JavaScript object keys iterate in insertion order). -/
def assocLookup {α : Type} (l : List (String × α)) (k : String) : Option α :=
  (l.find? (fun p => p.1 == k)).map (fun p => p.2)

end DTM

namespace DTM

/-! ## token-utils.ts : color conversion and unit formatting -/

/-- `Math.round(q * 255).toString()`, with `NaN` propagation. -/
def jRound255Str (x : JNum) : String :=
  match x with
  | none => "NaN"
  | some q => intDecStr (round (q * 255))

/-- `Math.round(q).toString()`, with `NaN` propagation. -/
def jRoundStr (x : JNum) : String :=
  match x with
  | none => "NaN"
  | some q => intDecStr (round q)

def natHexStr (n : ℕ) : String := ⟨Nat.toDigits 16 n⟩

def intHexStr (i : ℤ) : String :=
  if i < 0 then "-" ++ natHexStr i.natAbs else natHexStr i.toNat

/-- The `toHex` closure of `rgbaToHex`:
`Math.round(n * 255).toString(16)`, left-padded to two digits
(`Math.round(NaN).toString(16)` is `"NaN"`, which has length 3 and is not
padded). -/
def toHexByte (x : JNum) : String :=
  match x with
  | none => "NaN"
  | some q =>
    let hex := intHexStr (round (q * 255))
    if hex.data.length = 1 then "0" ++ hex else hex

/-- `a < 1` with JavaScript `NaN` comparison semantics. -/
def jLt1 (a : JNum) : Bool :=
  match a with
  | none => false
  | some q => decide (q < 1)

/-- `a.toFixed(3)` with `NaN` propagation. -/
def jFixed3 (a : JNum) : String :=
  match a with
  | none => "NaN"
  | some q => toFixedStr q 3

/-- `rgbaToHex(r, g, b, a = 1)` from `token-utils.ts`.  The default argument
(`a` is `1` when the caller passes `undefined`) is applied at each call
site. -/
def rgbaToHex (r g b : JNum) (a : JNum := some 1) : String :=
  if jLt1 a then
    "rgba(" ++ jRound255Str r ++ ", " ++ jRound255Str g ++ ", " ++ jRound255Str b
      ++ ", " ++ jFixed3 a ++ ")"
  else
    "#" ++ toHexByte r ++ toHexByte g ++ toHexByte b

structure Rgba where
  r : JNum
  g : JNum
  b : JNum
  a : JNum
deriving DecidableEq

/-- `hex.substring(i, j)` for the in-range constant indices used by
`hexToRgba`. -/
def hexSlice (cs : List Char) (i j : ℕ) : String := ⟨(cs.take j).drop i⟩

/-- `parseInt(two-digit slice, 16) / 255` with `NaN` propagation. -/
def parseByte (cs : List Char) (i j : ℕ) : JNum :=
  (parseIntHex (hexSlice cs i j)).map (fun q => q / 255)

/-- `hexToRgba` from `token-utils.ts`: strips the first `#`, accepts length
6 (alpha 1) or 8 (parsed alpha), and otherwise throws (`Except.error`). -/
def hexToRgba (hex : String) : Except Unit Rgba :=
  let h := (jsReplaceFirst hex '#').data
  if h.length = 6 then
    Except.ok ⟨parseByte h 0 2, parseByte h 2 4, parseByte h 4 6, some 1⟩
  else if h.length = 8 then
    Except.ok ⟨parseByte h 0 2, parseByte h 2 4, parseByte h 4 6, parseByte h 6 8⟩
  else
    Except.error ()

/-! JavaScript arithmetic and comparison on `JNum` (NaN-propagating). -/

def jAdd (x y : JNum) : JNum :=
  match x, y with
  | some a, some b => some (a + b)
  | _, _ => none

def jSub (x y : JNum) : JNum :=
  match x, y with
  | some a, some b => some (a - b)
  | _, _ => none

/-- Division.  A zero divisor yields JavaScript `Infinity`/`NaN`; only the
`NaN` outcome is modelled (`none`) — a zero divisor is unreachable in the
studied flows (it would require `max = min` inside the chromatic branch). -/
def jDiv (x y : JNum) : JNum :=
  match x, y with
  | some a, some b => if b = 0 then none else some (a / b)
  | _, _ => none

def jMax (x y : JNum) : JNum :=
  match x, y with
  | some a, some b => some (max a b)
  | _, _ => none

def jMin (x y : JNum) : JNum :=
  match x, y with
  | some a, some b => some (min a b)
  | _, _ => none

/-- JavaScript `!==` on numbers (`NaN !== x` is true). -/
def jNeqB (x y : JNum) : Bool :=
  match x, y with
  | some a, some b => decide (a ≠ b)
  | _, _ => true

/-- JavaScript `===` on numbers (`NaN === x` is false). -/
def jEqB (x y : JNum) : Bool :=
  match x, y with
  | some a, some b => decide (a = b)
  | _, _ => false

def jGtB (x y : JNum) : Bool :=
  match x, y with
  | some a, some b => decide (b < a)
  | _, _ => false

def jLtB (x y : JNum) : Bool :=
  match x, y with
  | some a, some b => decide (a < b)
  | _, _ => false

/-- `rgbToHsl` from `token-utils.ts`, returning `(h * 360, s, l)` as the
source does.  The `switch (max)` statement uses `===`, so with `NaN`
components no case matches and `h` keeps its initial `0`. -/
def rgbToHsl (r g b : JNum) : JNum × JNum × JNum :=
  let mx := jMax r (jMax g b)
  let mn := jMin r (jMin g b)
  let l := jDiv (jAdd mx mn) (some 2)
  if jNeqB mx mn then
    let d := jSub mx mn
    let s := if jGtB l (some (1 / 2)) then jDiv d (jSub (jSub (some 2) mx) mn)
             else jDiv d (jAdd mx mn)
    let h :=
      if jEqB mx r then jAdd (jDiv (jSub g b) d) (if jLtB g b then some 6 else some 0)
      else if jEqB mx g then jAdd (jDiv (jSub b r) d) (some 2)
      else if jEqB mx b then jAdd (jDiv (jSub r g) d) (some 4)
      else some 0
    let h := jDiv h (some 6)
    (match h with | some q => some (q * 360) | none => none, s, l)
  else
    (some 0, some 0, l)

/-- `F(n) = parseFloat(n.toFixed(3))` rendered through `${...}`. -/
def jFix3NumStr (x : JNum) : String :=
  match x with
  | none => "NaN"
  | some q => numToStr (roundTo 3 q)

/-- `Math.round(q * 100).toString()` (the `R(s * 100)` renderings). -/
def jRound100Str (x : JNum) : String :=
  match x with
  | none => "NaN"
  | some q => intDecStr (round (q * 100))

def isNumRunChar (c : Char) : Bool := c.isDigit || c = '.'

/-- `value.match(/[\d.]+/g)`: the maximal runs of digits and dots. -/
def numberRunsGo : List Char → List Char → List String
  | [], acc => if acc.isEmpty then [] else [⟨acc.reverse⟩]
  | c :: rest, acc =>
    if isNumRunChar c then numberRunsGo rest (c :: acc)
    else if acc.isEmpty then numberRunsGo rest []
    else String.mk acc.reverse :: numberRunsGo rest []

def numberRuns (s : String) : List String := numberRunsGo s.data []

/-- `formatColor` from `token-utils.ts`.  `oklchImpl` stands for the
floating-point `rgbaToOklch` conversion, which is not modelled (see the
file header). -/
def formatColor (oklchImpl : JNum → JNum → JNum → JNum → String)
    (value : String) (format : String) : String :=
  if value = "" then value
  else if jsStartsWith value "\x7b" then value
  else
    let parsedOpt : Option Rgba :=
      if jsStartsWith value "#" then
        match hexToRgba value with
        | Except.ok rgba => some rgba
        | Except.error _ => none
      else if jsStartsWith value "rgb" then
        match numberRuns value with
        | m0 :: m1 :: m2 :: rest =>
          some ⟨(jsParseFloat m0).map (fun q => q / 255),
                (jsParseFloat m1).map (fun q => q / 255),
                (jsParseFloat m2).map (fun q => q / 255),
                match rest with
                | m3 :: _ => jsParseFloat m3
                | [] => some 1⟩
        | _ => none
      else none
    match parsedOpt with
    | none => value
    | some rgba =>
      if format = "hex" then rgbaToHex rgba.r rgba.g rgba.b (some 1)
      else if format = "rgb" then
        "rgb(" ++ jRound255Str rgba.r ++ ", " ++ jRound255Str rgba.g ++ ", "
          ++ jRound255Str rgba.b ++ ")"
      else if format = "rgba" then
        "rgba(" ++ jRound255Str rgba.r ++ ", " ++ jRound255Str rgba.g ++ ", "
          ++ jRound255Str rgba.b ++ ", " ++ jFix3NumStr rgba.a ++ ")"
      else if format = "hsl" || format = "hsla" then
        let hsl := rgbToHsl rgba.r rgba.g rgba.b
        if format = "hsl" then
          "hsl(" ++ jRoundStr hsl.1 ++ ", " ++ jRound100Str hsl.2.1 ++ "%, "
            ++ jRound100Str hsl.2.2 ++ "%)"
        else
          "hsla(" ++ jRoundStr hsl.1 ++ ", " ++ jRound100Str hsl.2.1 ++ "%, "
            ++ jRound100Str hsl.2.2 ++ "%, " ++ jFix3NumStr rgba.a ++ ")"
      else if format = "oklch" then oklchImpl rgba.r rgba.g rgba.b rgba.a
      else value

/-- `formatUnit` from `token-utils.ts`.  `none` models a `NaN` argument
(`isNaN(value)` returns `String(value) = "NaN"`). -/
def formatUnit (value : JNum) (unit : String) (baseFontSize : ℚ := 16) : String :=
  match value with
  | none => "NaN"
  | some v =>
    if unit = "px" then numToStr v ++ "px"
    else if unit = "curr" then numToStr v
    else if unit = "rem" then numToStr (roundTo 4 (v / baseFontSize)) ++ "rem"
    else if unit = "em" then numToStr (roundTo 4 (v / baseFontSize)) ++ "em"
    else numToStr v ++ unit

/-! ## token-scanner.ts : data model of the host records -/

structure Mode where
  modeId : String
  name : String
deriving DecidableEq

structure VariableCollection where
  id : String
  name : String
  modes : List Mode
deriving DecidableEq

/-- A raw value stored in `valuesByMode`: an alias record
`{type:'VARIABLE_ALIAS', id}`, a color record `{r,g,b,a?}` (the alpha may be
absent, i.e. `undefined`), or a primitive. -/
inductive VarValue where
  | alias (id : String)
  | color (r g b : ℚ) (a : Option ℚ)
  | str (s : String)
  | num (q : ℚ)
  | bool (b : Bool)
deriving DecidableEq

structure FigVariable where
  id : String
  name : String
  description : String
  resolvedType : String
  variableCollectionId : String
  valuesByMode : List (String × VarValue)
deriving DecidableEq

/-! ## token-scanner.ts : categorization and path parsing -/

def PRIMITIVE_KEYWORDS : List String :=
  ["primitive", "palette", "core", "scale", "base", "ref", "reference"]

def SEMANTIC_KEYWORDS : List String :=
  ["semantic", "system", "usage", "alias", "light", "dark", "mode"]

/-- The inline list of name beginnings checked by the fourth heuristic of
`determineCategory`. -/
def SEMANTIC_STARTS : List String :=
  ["text", "bg", "background", "surface", "border", "fg", "foreground"]

inductive TokenCategory where
  | primitives
  | semantic
  | components
  | uncategorized
deriving DecidableEq

/-- `/\d{2,3}$/.test s`: the regex matches two or three digits anchored at
the end, which holds exactly when the final two characters exist and are
both digits. -/
def testTwoOrThreeDigitsAtEnd (s : String) : Bool :=
  match s.data.reverse with
  | c1 :: c2 :: _ => c1.isDigit && c2.isDigit
  | _ => false

/-- `determineCategory` from `token-scanner.ts`. -/
def determineCategory (name : String) (collectionName : String := "") : TokenCategory :=
  let fullString := jsToLower (collectionName ++ "/" ++ name)
  if PRIMITIVE_KEYWORDS.any (fun k => jsIncludes fullString k) then TokenCategory.primitives
  else if SEMANTIC_KEYWORDS.any (fun k => jsIncludes fullString k) then TokenCategory.semantic
  else if testTwoOrThreeDigitsAtEnd (jsTrim name) then TokenCategory.primitives
  else if SEMANTIC_STARTS.any (fun k => jsStartsWith (jsToLower name) k) then TokenCategory.semantic
  else TokenCategory.uncategorized

def isPathDelim (c : Char) : Bool := c = '/' || c = '.' || c = '-'

/-- `name.split(/[\/\.\-]+/)`: pieces between maximal delimiter runs,
including the empty pieces JavaScript produces at the borders. -/
def splitDelimGo : List Char → List Char → Bool → List (List Char)
  | [], acc, _ => [acc.reverse]
  | c :: rest, acc, inDelim =>
    if isPathDelim c then
      if inDelim then splitDelimGo rest [] true
      else acc.reverse :: splitDelimGo rest [] true
    else splitDelimGo rest (c :: acc) false

def splitPathDelims (s : String) : List String :=
  (splitDelimGo s.data [] false).map (fun l => ⟨l⟩)

/-- The `camelCase` helper of `token-scanner.ts`:
`str.replace(/(?:^\w|[A-Z]|\b\w)/g, cb).replace(/\s+/g, '')`, where the
callback receives the match offset as its second argument and lowercases
the match at offset 0, uppercasing matches elsewhere.  Every match of the
regex is a single character `c` with: `c` uppercase, or `c` a word
character at a word boundary (start of string or preceded by a non-word
character). -/
def camelGo : List Char → Option Char → ℕ → List Char
  | [], _, _ => []
  | c :: rest, prev, i =>
    let boundary : Bool :=
      match prev with
      | none => true
      | some p => !isWordChar p
    let matched := c.isUpper || (isWordChar c && boundary)
    let c' := if matched then (if i = 0 then c.toLower else c.toUpper) else c
    c' :: camelGo rest (some c) (i + 1)

def camelCase (str : String) : String :=
  replaceWsRuns "" ⟨camelGo str.data none 0⟩

/-- `parseStyleName` from `token-scanner.ts`. -/
def parseStyleName (name : String) : List String :=
  let parts := ((splitPathDelims name).map jsTrim).filter (fun p => p.data.length > 0)
  parts.map camelCase

/-! ## token-scanner.ts : the token tree and `addToTokens` -/

structure TokenValueM where
  value : String
  ttype : String
  description : Option String
  styleId : Option String
  variableId : Option String
  originalPath : List String

/-- A JavaScript object in the token tree: a property map, plus the token
payload when the object is a `TokenValue`.  (`addToTokens` navigates with
`typeof current[part] === 'object'`, which is satisfied by token leaves as
well, so a leaf can acquire child properties; this representation keeps
that behavior.) -/
inductive TkNode where
  | mk (props : List (String × TkNode)) (token : Option TokenValueM)

/-- JavaScript property assignment `obj[k] = v`: updates in place or
appends (insertion order preserved). -/
def assocSet {α : Type} (l : List (String × α)) (k : String) (v : α) : List (String × α) :=
  if l.any (fun p => p.1 == k) then l.map (fun p => if p.1 == k then (k, v) else p)
  else l ++ [(k, v)]

/-- The navigate/create loop plus final assignment of `addToTokens`.  An
empty path makes JavaScript assign to the key `"undefined"`
(`path[path.length - 1]` is `undefined`); this never happens in the scan
flows, where a `"color"` head segment is prepended first. -/
def insertPath : List String → List (String × TkNode) → TokenValueM → List (String × TkNode)
  | [], props, tok => assocSet props "undefined" (TkNode.mk [] (some tok))
  | [last], props, tok => assocSet props last (TkNode.mk [] (some tok))
  | p :: rest, props, tok =>
    match assocLookup props p with
    | some (TkNode.mk cprops cval) => assocSet props p (TkNode.mk (insertPath rest cprops tok) cval)
    | none => assocSet props p (TkNode.mk (insertPath rest [] tok) none)

structure DesignTokensM where
  primitives : Option (List (String × TkNode))
  semantic : Option (List (String × TkNode))
  components : Option (List (String × TkNode))
  uncategorized : Option (List (String × TkNode))

def getCategory (t : DesignTokensM) : TokenCategory → Option (List (String × TkNode))
  | TokenCategory.primitives => t.primitives
  | TokenCategory.semantic => t.semantic
  | TokenCategory.components => t.components
  | TokenCategory.uncategorized => t.uncategorized

def setCategory (t : DesignTokensM) : TokenCategory → List (String × TkNode) → DesignTokensM
  | TokenCategory.primitives, l => { t with primitives := some l }
  | TokenCategory.semantic, l => { t with semantic := some l }
  | TokenCategory.components, l => { t with components := some l }
  | TokenCategory.uncategorized, l => { t with uncategorized := some l }

/-- `addToTokens` from `token-scanner.ts`. -/
def addToTokens (tokens : DesignTokensM) (category : TokenCategory)
    (path : List String) (token : TokenValueM) : DesignTokensM :=
  let current := (getCategory tokens category).getD []
  let effectivePath :=
    if token.ttype = "color" ∧ path.head? ≠ some "color" then "color" :: path else path
  setCategory tokens category (insertPath effectivePath current token)

/-! ## token-scanner.ts : `scanAllTokens` over host snapshots -/

structure Paint where
  ptype : String
  r : ℚ
  g : ℚ
  b : ℚ
  opacity : Option ℚ

structure PaintStyle where
  id : String
  name : String
  description : String
  paints : List Paint

/-- Loop body of `scanColorStyles`. -/
def scanStyleStep (tokens : DesignTokensM) (style : PaintStyle) : DesignTokensM :=
  match style.paints with
  | [] => tokens
  | paint :: _ =>
    if paint.ptype = "SOLID" then
      let colorValue := rgbaToHex (some paint.r) (some paint.g) (some paint.b)
        (some (match paint.opacity with | some o => o | none => 1))
      let category := determineCategory style.name
      let path := parseStyleName style.name
      let token : TokenValueM :=
        { value := colorValue, ttype := "color",
          description := if style.description = "" then none else some style.description,
          styleId := some style.id, variableId := none, originalPath := path }
      addToTokens tokens category path token
    else tokens

/-- Loop body of `scanColorVariables`.  The heuristic `if` block that
inspects generic collection names has an empty body in the source, so the
path is the variable's parsed name in all cases. -/
def scanVariableStep (collectionMap : List (String × String))
    (tokens : DesignTokensM) (v : FigVariable) : DesignTokensM :=
  if v.resolvedType = "COLOR" then
    match v.valuesByMode with
    | [] => tokens
    | (_, value) :: _ =>
      match value with
      | VarValue.alias _ => tokens
      | VarValue.color r g b a =>
        let colorValue := rgbaToHex (some r) (some g) (some b)
          (some (match a with | some x => x | none => 1))
        let collectionName := (assocLookup collectionMap v.variableCollectionId).getD ""
        let path := parseStyleName v.name
        let category := determineCategory v.name collectionName
        let token : TokenValueM :=
          { value := colorValue, ttype := "color",
            description := if v.description = "" then none else some v.description,
            styleId := none, variableId := some v.id, originalPath := path }
        addToTokens tokens category path token
      | _ => tokens
  else tokens

def cleanupCategory : Option (List (String × TkNode)) → Option (List (String × TkNode))
  | some [] => none
  | x => x

/-- `scanAllTokens` from `token-scanner.ts`, as a pure function of the host
snapshot (paint styles, variables, collections). -/
def scanAllTokens (paintStyles : List PaintStyle) (figVariables : List FigVariable)
    (collections : List VariableCollection) : DesignTokensM :=
  let tokens : DesignTokensM := ⟨some [], some [], some [], some []⟩
  let tokens := paintStyles.foldl scanStyleStep tokens
  let collectionMap := collections.map (fun c => (c.id, c.name))
  let tokens := figVariables.foldl (scanVariableStep collectionMap) tokens
  { primitives := cleanupCategory tokens.primitives,
    semantic := cleanupCategory tokens.semantic,
    components := cleanupCategory tokens.components,
    uncategorized := cleanupCategory tokens.uncategorized }

/-! ## token-scanner.ts : `resolveVariableValue` -/

/-- The result of alias resolution: the source returns a string, a number,
or (via the final untyped cast) the raw record itself. -/
inductive ResolvedVal where
  | rstr (s : String)
  | rnum (q : ℚ)
  | rraw (v : VarValue)
deriving DecidableEq

/-- The `${variable.id}:${modeId}` cycle key. -/
def refKeyOf (v : FigVariable) (modeId : String) : String := v.id ++ ":" ++ modeId

/-- Steps 2–3 of the resolver body when the raw value is not an alias:
colors are converted with `rgbaToHex` (alpha defaulting to 1 when
`undefined`), everything else is returned as-is
(`return rawValue as string | number`). -/
def nonAliasValue (v : FigVariable) (rawValue : Option VarValue) : Option ResolvedVal :=
  match rawValue with
  | some (VarValue.color r g b a) =>
    if v.resolvedType = "COLOR" then
      some (ResolvedVal.rstr (rgbaToHex (some r) (some g) (some b)
        (some (match a with | some x => x | none => 1))))
    else some (ResolvedVal.rraw (VarValue.color r g b a))
  | some (VarValue.str s) => some (ResolvedVal.rstr s)
  | some (VarValue.num q) => some (ResolvedVal.rnum q)
  | some w => some (ResolvedVal.rraw w)
  | none => none

/-- The target-mode choice of `resolveVariableValue` (its
`currentModeName` / `targetModeId` block), with `m0` the first declared
mode of the target collection:
`currentModeName = collection.modes.find(m => m.modeId === modeId)?.name`;
`if (currentModeName)` is JavaScript truthiness, so a missing *or empty*
name skips name matching and keeps the first-mode fallback. -/
def chooseTargetModeId (coll targetColl : VariableCollection) (modeId : String)
    (m0 : Mode) : String :=
  match (coll.modes.find? (fun m => m.modeId == modeId)).map Mode.name with
  | some nm =>
    if nm = "" then m0.modeId
    else
      match targetColl.modes.find? (fun m => m.name == nm) with
      | some mm => mm.modeId
      | none => m0.modeId
  | none => m0.modeId

/-- `resolveVariableValue` from `token-scanner.ts`, with an explicit fuel
for the recursion; `resolveVariableValue` below instantiates the fuel
above the recursion-depth bound, and the theorems show the result is then
fuel-independent.  The second component counts the recursive calls made.
`Except.error ()` models a thrown `TypeError`; besides the (unreachable)
fuel-exhaustion case it occurs exactly at `targetCollection.modes[0]` on an
empty mode list.  The `if (currentModeName)` test in the source is
JavaScript truthiness: an empty mode name skips name matching. -/
def resolveAux (vm : List (String × FigVariable)) (cm : List (String × VariableCollection)) :
    ℕ → FigVariable → String → VariableCollection → List String →
    Except Unit (Option ResolvedVal) × ℕ
  | 0, _, _, _, _ => (Except.error (), 0)
  | fuel + 1, v, modeId, coll, visited =>
    if refKeyOf v modeId ∈ visited then (Except.ok none, 0)
    else
      match assocLookup v.valuesByMode modeId with
      | some (VarValue.alias aliasId) =>
        match assocLookup vm aliasId with
        | none => (Except.ok none, 0)
        | some targetVar =>
          match assocLookup cm targetVar.variableCollectionId with
          | none => (Except.ok none, 0)
          | some targetColl =>
            match targetColl.modes with
            | [] => (Except.error (), 0)
            | m0 :: _ =>
              let r := resolveAux vm cm fuel targetVar
                (chooseTargetModeId coll targetColl modeId m0) targetColl
                (refKeyOf v modeId :: visited)
              (r.1, r.2 + 1)
      | rawValue => (Except.ok (nonAliasValue v rawValue), 0)

/-- Does a raw value satisfy the alias test of branch 1
(`typeof rawValue === 'object' && 'type' in rawValue &&
rawValue.type === 'VARIABLE_ALIAS'`)? -/
def isAliasVal : Option VarValue → Bool
  | some (VarValue.alias _) => true
  | _ => false

/-- The distinct `id:modeId` keys formed from the variables of the variable
map and the modes of the collections of the collection map: every key
reached by a recursive call lies in this set. -/
def graphKeys (vm : List (String × FigVariable))
    (cm : List (String × VariableCollection)) : Finset String :=
  ((vm.map (fun p => p.2.id)).flatMap (fun vid =>
    (cm.flatMap (fun p => p.2.modes)).map (fun m => vid ++ ":" ++ m.modeId))).toFinset

/-- `resolveVariableValue`: `resolveAux` with fuel strictly above the
recursion-depth bound (the theorems below show any fuel at least this
large yields the same result). -/
def resolveVariableValue (vm : List (String × FigVariable))
    (cm : List (String × VariableCollection)) (v : FigVariable) (modeId : String)
    (coll : VariableCollection) (visited : List String) :
    Except Unit (Option ResolvedVal) :=
  (resolveAux vm cm ((graphKeys vm cm).card + 2) v modeId coll visited).1

/-! ## token-export.ts : the per-value renderer -/

inductive ExpFormat where
  | css
  | scss
  | json
  | dtcg
deriving DecidableEq

inductive AliasMode where
  | resolved
  | alias
deriving DecidableEq

structure ExportOptions where
  format : ExpFormat
  modes : List Mode
  aliasMode : AliasMode
  colorFormat : String
  unitFormat : String
  baseFontSize : ℚ
  unitPerVariable : Option (List (String × String))
deriving DecidableEq

/-- A `string | number` value. -/
inductive StrNum where
  | vstr (s : String)
  | vnum (q : ℚ)
deriving DecidableEq

/-- JavaScript `String(x)` on a `string | number`. -/
def strOfStrNum : StrNum → String
  | StrNum.vstr s => s
  | StrNum.vnum q => numToStr q

/-- The per-mode `Token` stored in `valuesByMode` as `processValue` reads
it: its direct `value` and (for aliases) the resolver's `resolvedValue`,
`none` modelling `undefined`. -/
structure ModeToken where
  value : StrNum
  resolvedValue : Option StrNum
deriving DecidableEq

structure CollectionVariableDetail where
  id : String
  name : String
  vtype : String
  valuesByMode : List (String × ModeToken)
  isAlias : Bool
deriving DecidableEq

/-- `normalizeDashName` from `token-export.ts`:
`name.toLowerCase().replace(/\//g, '-').replace(/\s+/g, '-')`. -/
def normalizeDashName (name : String) : String :=
  replaceWsRuns "-" ⟨(jsToLower name).data.map (fun c => if c = '/' then '-' else c)⟩

/-- `normalizeDotName` from `token-export.ts`:
`name.toLowerCase().replace(/\//g, '.').replace(/\s+/g, '-')`. -/
def normalizeDotName (name : String) : String :=
  replaceWsRuns "-" ⟨(jsToLower name).data.map (fun c => if c = '/' then '.' else c)⟩

/-- The value `processValue` hands to the document generators: a plain
string, or (for DTCG alias references) the object `{ $ref: name }`. -/
inductive ProcOut where
  | pstr (s : String)
  | pref (name : String)
deriving DecidableEq

/-- `options.unitPerVariable?.get(v.id) || options.unitFormat` (an absent
map, a missing entry and an empty-string unit are all falsy). -/
def unitFor (v : CollectionVariableDetail) (options : ExportOptions) : String :=
  match options.unitPerVariable with
  | none => options.unitFormat
  | some m =>
    match assocLookup m v.id with
    | none => options.unitFormat
    | some u => if u = "" then options.unitFormat else u

/-- `processValue` from `token-export.ts`.  `oklchImpl` is threaded to
`formatColor` (see the file header). -/
def processValue (oklchImpl : JNum → JNum → JNum → JNum → String)
    (v : CollectionVariableDetail) (modeId : String) (options : ExportOptions) : ProcOut :=
  match assocLookup v.valuesByMode modeId with
  | none => ProcOut.pstr "null"
  | some modeVal =>
    let isResolved : Bool := options.aliasMode = AliasMode.resolved
    let rawValue : StrNum :=
      if isResolved then
        match modeVal.resolvedValue with
        | some rv => rv
        | none => modeVal.value
      else modeVal.value
    let aliasName : Option String :=
      match rawValue with
      | StrNum.vstr s =>
        if !isResolved && jsStartsWith s "\x7b" && jsEndsWith s "\x7d" then
          some (jsSubstring s 1 ((s.data.length : ℤ) - 1))
        else none
      | StrNum.vnum _ => none
    match aliasName with
    | some rawName =>
      match options.format with
      | ExpFormat.css => ProcOut.pstr ("var(--" ++ normalizeDashName rawName ++ ")")
      | ExpFormat.scss => ProcOut.pstr ("$" ++ normalizeDashName rawName)
      | ExpFormat.json => ProcOut.pstr ("\x7b" ++ normalizeDotName rawName ++ "\x7d")
      | ExpFormat.dtcg => ProcOut.pref (normalizeDotName rawName)
    | none =>
      if v.vtype = "color" then
        ProcOut.pstr (formatColor oklchImpl (strOfStrNum rawValue) options.colorFormat)
      else if v.vtype = "number" || v.vtype = "spacing" || v.vtype = "borderRadius"
          || v.vtype = "typography" then
        match rawValue with
        | StrNum.vnum q => ProcOut.pstr (formatUnit (some q) (unitFor v options) options.baseFontSize)
        | StrNum.vstr s =>
          match jsNumber s with
          | some q => ProcOut.pstr (formatUnit (some q) (unitFor v options) options.baseFontSize)
          | none => ProcOut.pstr (strOfStrNum rawValue)
      else ProcOut.pstr (strOfStrNum rawValue)

/-! ## Concrete instances used by the witnesses and counterexamples -/

def hexLowerChars : List Char :=
  (List.range 10).map (fun i => Char.ofNat ('0'.toNat + i)) ++
    (List.range 6).map (fun i => Char.ofNat ('a'.toNat + i))

def hexDigitChars : List Char :=
  hexLowerChars ++ (List.range 6).map (fun i => Char.ofNat ('A'.toNat + i))

/-- A two-variable, one-mode alias cycle `A → B → A`. -/
def cycleColl : VariableCollection := ⟨"c1", "Collection", [⟨"m1", "Mode 1"⟩]⟩

def cycleVarA : FigVariable := ⟨"A", "varA", "", "COLOR", "c1", [("m1", VarValue.alias "B")]⟩

def cycleVarB : FigVariable := ⟨"B", "varB", "", "COLOR", "c1", [("m1", VarValue.alias "A")]⟩

def cycleVarMap : List (String × FigVariable) := [("A", cycleVarA), ("B", cycleVarB)]

def cycleCollMap : List (String × VariableCollection) := [("c1", cycleColl)]

/-- An alias into a collection whose mode list is empty: the source indexes
`targetCollection.modes[0]` and throws. -/
def c3Coll : VariableCollection := ⟨"cT", "T", []⟩

def c3SrcColl : VariableCollection := ⟨"cS", "S", [⟨"m", "M"⟩]⟩

def c3SrcVar : FigVariable := ⟨"S", "s", "", "COLOR", "cS", [("m", VarValue.alias "T")]⟩

def c3TgtVar : FigVariable := ⟨"T", "t", "", "COLOR", "cT", []⟩

def c3VarMap : List (String × FigVariable) := [("T", c3TgtVar)]

def c3CollMap : List (String × VariableCollection) := [("cT", c3Coll)]

/-- A variable whose alias target `Z` is absent from the variable map. -/
def c3BrokenVar : FigVariable := ⟨"W", "w", "", "COLOR", "cS", [("m", VarValue.alias "Z")]⟩

/-- A target variable whose collection id is absent from the collection
map. -/
def c3OrphanTarget : FigVariable := ⟨"U", "u", "", "COLOR", "missing", []⟩

def c3RefVar : FigVariable := ⟨"V", "v", "", "COLOR", "cS", [("m", VarValue.alias "U")]⟩

def c3VarMap2 : List (String × FigVariable) := [("T", c3TgtVar), ("U", c3OrphanTarget)]

/-- The current mode is named `""` and the target collection's second mode
is also named `""`: a name match exists, but JavaScript truthiness makes
the source fall back to the target's first mode. -/
def c4CollSrc : VariableCollection := ⟨"c1", "Src", [⟨"m1", ""⟩]⟩

def c4CollTgt : VariableCollection := ⟨"c2", "Tgt", [⟨"t1", "X"⟩, ⟨"t2", ""⟩]⟩

def c4VarA : FigVariable := ⟨"A", "a", "", "FLOAT", "c1", [("m1", VarValue.alias "B")]⟩

def c4VarB : FigVariable :=
  ⟨"B", "b", "", "FLOAT", "c2", [("t1", VarValue.num 1), ("t2", VarValue.num 2)]⟩

def c4VarMap : List (String × FigVariable) := [("A", c4VarA), ("B", c4VarB)]

def c4CollMap : List (String × VariableCollection) := [("c1", c4CollSrc), ("c2", c4CollTgt)]

/-- A placeholder for the unmodelled floating-point OKLCH converter; none
of the evaluated paths reach it. -/
def zeroOklch : JNum → JNum → JNum → JNum → String := fun _ _ _ _ => ""

/-- A color variable whose only mode holds a broken alias: the direct value
is the pointer `{x}` and `resolvedValue` is `undefined`. -/
def c2Var : CollectionVariableDetail :=
  ⟨"v1", "color/x", "color", [("m", ⟨StrNum.vstr "\x7bx\x7d", none⟩)], true⟩

def c2Opts : ExportOptions := ⟨ExpFormat.css, [], AliasMode.resolved, "hex", "px", 16, none⟩

def c5Var : CollectionVariableDetail :=
  ⟨"v1", "n", "color", [("m", ⟨StrNum.vstr "\x7bColor/Primary Blue\x7d", none⟩)], true⟩

def c5Opts (f : ExpFormat) : ExportOptions := ⟨f, [], AliasMode.alias, "hex", "px", 16, none⟩

-- Equality of `Except` outcomes is decidable.
deriving instance DecidableEq for Except

end DTM

namespace DTM

/-! Batteries marks the `Rat` field operations `@[irreducible]`; the
concrete evaluations below restore default transparency for them so that
`decide` can reduce rational arithmetic. -/
section Theorems

attribute [local semireducible] Rat.mul Rat.inv Rat.add Rat.sub

/-! ## Helper lemmas -/

lemma toHexByte_parseByte_pair :
    ∀ c1 ∈ hexLowerChars, ∀ c2 ∈ hexLowerChars,
      toHexByte ((parseIntHex (String.mk [c1, c2])).map (fun q => q / 255)) =
        String.mk [c1, c2] := by
  decide

lemma parseIntHex_pair :
    ∀ c1 ∈ hexDigitChars, ∀ c2 ∈ hexDigitChars,
      parseIntHex (String.mk [c1, c2]) =
        some ((16 * hexDigitVal c1 + hexDigitVal c2 : ℕ) : ℚ) := by
  decide

lemma hexDigitVal_le : ∀ c ∈ hexDigitChars, hexDigitVal c ≤ 15 := by
  decide

lemma byteVal_bounds :
    ∀ c1 ∈ hexDigitChars, ∀ c2 ∈ hexDigitChars,
      (0 : ℚ) ≤ ((16 * hexDigitVal c1 + hexDigitVal c2 : ℕ) : ℚ) / 255 ∧
      ((16 * hexDigitVal c1 + hexDigitVal c2 : ℕ) : ℚ) / 255 ≤ 1 := by
  intro c1 h1 c2 h2
  have u1 := hexDigitVal_le c1 h1
  have u2 := hexDigitVal_le c2 h2
  constructor
  · positivity
  · rw [div_le_one (by norm_num)]
    have : (16 * hexDigitVal c1 + hexDigitVal c2 : ℕ) ≤ 255 := by omega
    exact_mod_cast this

/-! ## C6 : opaque hex round-trip -/

/-- C6 (amended): for every string of the form `#` followed by six
lowercase hexadecimal digits, feeding the components of `hexToRgba` back
into `rgbaToHex` returns the original string.  (As frozen, the claim fails
for accepted inputs that are uppercase or lack the `#`; see the
counterexample.) -/
theorem C6_hex_roundtrip :
    ∀ c1 c2 c3 c4 c5 c6 : Char,
      c1 ∈ hexLowerChars → c2 ∈ hexLowerChars → c3 ∈ hexLowerChars →
      c4 ∈ hexLowerChars → c5 ∈ hexLowerChars → c6 ∈ hexLowerChars →
      (hexToRgba (String.mk ['#', c1, c2, c3, c4, c5, c6])).map
          (fun p => rgbaToHex p.r p.g p.b p.a) =
        Except.ok (String.mk ['#', c1, c2, c3, c4, c5, c6]) := by
  intro c1 c2 c3 c4 c5 c6 h1 h2 h3 h4 h5 h6
  have e1 := toHexByte_parseByte_pair c1 h1 c2 h2
  have e2 := toHexByte_parseByte_pair c3 h3 c4 h4
  have e3 := toHexByte_parseByte_pair c5 h5 c6 h6
  show Except.ok (rgbaToHex ((parseIntHex (String.mk [c1, c2])).map (fun q => q / 255))
      ((parseIntHex (String.mk [c3, c4])).map (fun q => q / 255))
      ((parseIntHex (String.mk [c5, c6])).map (fun q => q / 255)) (some 1)) = _
  show Except.ok ("#" ++ toHexByte ((parseIntHex (String.mk [c1, c2])).map (fun q => q / 255))
      ++ toHexByte ((parseIntHex (String.mk [c3, c4])).map (fun q => q / 255))
      ++ toHexByte ((parseIntHex (String.mk [c5, c6])).map (fun q => q / 255))) = _
  rw [e1, e2, e3]
  rfl

/-- C6 counterexample: `"#AABBCC"` is a valid 6-digit hex string accepted
by `hexToRgba`, but the round trip returns `"#aabbcc"`, not the original
string. -/
theorem C6_counterexample :
    (hexToRgba "#AABBCC").map (fun p => rgbaToHex p.r p.g p.b p.a) = Except.ok "#aabbcc" ∧
    ("#aabbcc" : String) ≠ "#AABBCC" := by
  constructor
  · decide
  · decide

/-- Witness for `C6_hex_roundtrip` at `"#2e9fb9"`. -/
theorem C6_hex_roundtrip_witness :
    (hexToRgba (String.mk ['#', '2', 'e', '9', 'f', 'b', '9'])).map
        (fun p => rgbaToHex p.r p.g p.b p.a) =
      Except.ok (String.mk ['#', '2', 'e', '9', 'f', 'b', '9']) :=
  have h : '2' ∈ hexLowerChars ∧ 'e' ∈ hexLowerChars ∧ '9' ∈ hexLowerChars ∧
      'f' ∈ hexLowerChars ∧ 'b' ∈ hexLowerChars := by decide
  C6_hex_roundtrip '2' 'e' '9' 'f' 'b' '9' h.1 h.2.1 h.2.2.1 h.2.2.2.1 h.2.2.2.2 h.2.2.1

/-! ## C8 : formatUnit -/

/-- C8: `formatUnit` appends the literal suffix for `px`; for `rem`/`em` it
divides by `baseFontSize` (positive, matching the finite JavaScript
behavior) and prints the 4-decimal rounding with trailing zeros stripped
plus the suffix — the printed value is an integer multiple of `1/10^4`;
any other unit besides `curr` passes the number through suffixed verbatim
(in particular `none`); `baseFontSize` defaults to 16; and
`formatUnit(8,'rem',16) = "0.5rem"`, `formatUnit(8,'px',16) = "8px"`.
Totality in Lean models "never throws". -/
theorem C8_formatUnit :
    (∀ (v b : ℚ), formatUnit (some v) "px" b = numToStr v ++ "px") ∧
    (∀ (v b : ℚ), 0 < b →
      formatUnit (some v) "rem" b = numToStr (roundTo 4 (v / b)) ++ "rem" ∧
      formatUnit (some v) "em" b = numToStr (roundTo 4 (v / b)) ++ "em" ∧
      ∃ m : ℤ, roundTo 4 (v / b) = (m : ℚ) / 10 ^ 4) ∧
    (∀ (v b : ℚ) (u : String), u ≠ "px" → u ≠ "curr" → u ≠ "rem" → u ≠ "em" →
      formatUnit (some v) u b = numToStr v ++ u) ∧
    formatUnit (some 8) "rem" 16 = "0.5rem" ∧
    formatUnit (some 8) "px" 16 = "8px" ∧
    formatUnit (some 8) "rem" = "0.5rem" := by
  refine ⟨fun v b => rfl, fun v b _ => ⟨rfl, rfl, ⟨round (v / b * 10 ^ 4), rfl⟩⟩,
    fun v b u h1 h2 h3 h4 => ?_, by decide, by decide, by decide⟩
  simp only [formatUnit]
  rw [if_neg h1, if_neg h2, if_neg h3, if_neg h4]

/-- Witness for `C8_formatUnit` at `v = 8`, `b = 16`, `u = "none"`. -/
theorem C8_formatUnit_witness :
    formatUnit (some 8) "px" 16 = numToStr 8 ++ "px" ∧
    formatUnit (some 8) "rem" 16 = numToStr (roundTo 4 ((8 : ℚ) / 16)) ++ "rem" ∧
    formatUnit (some 8) "none" 16 = numToStr 8 ++ "none" :=
  have hne : ("none" : String) ≠ "px" ∧ ("none" : String) ≠ "curr" ∧
      ("none" : String) ≠ "rem" ∧ ("none" : String) ≠ "em" := by decide
  ⟨C8_formatUnit.1 8 16,
   (C8_formatUnit.2.1 8 16 (by norm_num)).1,
   C8_formatUnit.2.2.1 8 16 "none" hne.1 hne.2.1 hne.2.2.1 hne.2.2.2⟩

/-! ## C9 : hexToRgba input acceptance -/

/-- C9: `hexToRgba` raises if and only if the character count after
removing the first `#` is neither 6 nor 8; on a 6-digit form it returns
components in `[0,1]` with alpha 1, and on an 8-digit form the alpha is
the parsed eighth byte over 255 (also in `[0,1]`). -/
theorem C9_hexToRgba :
    (∀ s : String, hexToRgba s = Except.error () ↔
      ((jsReplaceFirst s '#').data.length ≠ 6 ∧ (jsReplaceFirst s '#').data.length ≠ 8)) ∧
    (∀ s c1 c2 c3 c4 c5 c6,
      (jsReplaceFirst s '#').data = [c1, c2, c3, c4, c5, c6] →
      c1 ∈ hexDigitChars → c2 ∈ hexDigitChars → c3 ∈ hexDigitChars →
      c4 ∈ hexDigitChars → c5 ∈ hexDigitChars → c6 ∈ hexDigitChars →
      hexToRgba s = Except.ok
        ⟨some (((16 * hexDigitVal c1 + hexDigitVal c2 : ℕ) : ℚ) / 255),
         some (((16 * hexDigitVal c3 + hexDigitVal c4 : ℕ) : ℚ) / 255),
         some (((16 * hexDigitVal c5 + hexDigitVal c6 : ℕ) : ℚ) / 255),
         some 1⟩ ∧
      (0 : ℚ) ≤ ((16 * hexDigitVal c1 + hexDigitVal c2 : ℕ) : ℚ) / 255 ∧
      ((16 * hexDigitVal c1 + hexDigitVal c2 : ℕ) : ℚ) / 255 ≤ 1) ∧
    (∀ s c1 c2 c3 c4 c5 c6 c7 c8,
      (jsReplaceFirst s '#').data = [c1, c2, c3, c4, c5, c6, c7, c8] →
      c1 ∈ hexDigitChars → c2 ∈ hexDigitChars → c3 ∈ hexDigitChars →
      c4 ∈ hexDigitChars → c5 ∈ hexDigitChars → c6 ∈ hexDigitChars →
      c7 ∈ hexDigitChars → c8 ∈ hexDigitChars →
      hexToRgba s = Except.ok
        ⟨some (((16 * hexDigitVal c1 + hexDigitVal c2 : ℕ) : ℚ) / 255),
         some (((16 * hexDigitVal c3 + hexDigitVal c4 : ℕ) : ℚ) / 255),
         some (((16 * hexDigitVal c5 + hexDigitVal c6 : ℕ) : ℚ) / 255),
         some (((16 * hexDigitVal c7 + hexDigitVal c8 : ℕ) : ℚ) / 255)⟩ ∧
      (0 : ℚ) ≤ ((16 * hexDigitVal c7 + hexDigitVal c8 : ℕ) : ℚ) / 255 ∧
      ((16 * hexDigitVal c7 + hexDigitVal c8 : ℕ) : ℚ) / 255 ≤ 1) := by
  refine ⟨fun s => ?_, fun s c1 c2 c3 c4 c5 c6 hd h1 h2 h3 h4 h5 h6 => ?_,
    fun s c1 c2 c3 c4 c5 c6 c7 c8 hd h1 h2 h3 h4 h5 h6 h7 h8 => ?_⟩
  · simp only [hexToRgba]
    split_ifs with hA hB
    · simp [hA]
    · simp [hA, hB]
    · exact iff_of_true rfl ⟨by simpa using hA, by simpa using hB⟩
  · have hb := byteVal_bounds
    refine ⟨?_, (hb c1 h1 c2 h2).1, (hb c1 h1 c2 h2).2⟩
    have key : hexToRgba s = Except.ok
        ⟨parseByte [c1, c2, c3, c4, c5, c6] 0 2, parseByte [c1, c2, c3, c4, c5, c6] 2 4,
         parseByte [c1, c2, c3, c4, c5, c6] 4 6, some 1⟩ := by
      unfold hexToRgba
      rw [hd]
      rfl
    rw [key,
      show parseByte [c1, c2, c3, c4, c5, c6] 0 2
        = (parseIntHex (String.mk [c1, c2])).map (fun q => q / 255) from rfl,
      show parseByte [c1, c2, c3, c4, c5, c6] 2 4
        = (parseIntHex (String.mk [c3, c4])).map (fun q => q / 255) from rfl,
      show parseByte [c1, c2, c3, c4, c5, c6] 4 6
        = (parseIntHex (String.mk [c5, c6])).map (fun q => q / 255) from rfl,
      parseIntHex_pair c1 h1 c2 h2, parseIntHex_pair c3 h3 c4 h4, parseIntHex_pair c5 h5 c6 h6]
    rfl
  · have hb := byteVal_bounds
    refine ⟨?_, (hb c7 h7 c8 h8).1, (hb c7 h7 c8 h8).2⟩
    have key : hexToRgba s = Except.ok
        ⟨parseByte [c1, c2, c3, c4, c5, c6, c7, c8] 0 2,
         parseByte [c1, c2, c3, c4, c5, c6, c7, c8] 2 4,
         parseByte [c1, c2, c3, c4, c5, c6, c7, c8] 4 6,
         parseByte [c1, c2, c3, c4, c5, c6, c7, c8] 6 8⟩ := by
      unfold hexToRgba
      rw [hd]
      rfl
    rw [key,
      show parseByte [c1, c2, c3, c4, c5, c6, c7, c8] 0 2
        = (parseIntHex (String.mk [c1, c2])).map (fun q => q / 255) from rfl,
      show parseByte [c1, c2, c3, c4, c5, c6, c7, c8] 2 4
        = (parseIntHex (String.mk [c3, c4])).map (fun q => q / 255) from rfl,
      show parseByte [c1, c2, c3, c4, c5, c6, c7, c8] 4 6
        = (parseIntHex (String.mk [c5, c6])).map (fun q => q / 255) from rfl,
      show parseByte [c1, c2, c3, c4, c5, c6, c7, c8] 6 8
        = (parseIntHex (String.mk [c7, c8])).map (fun q => q / 255) from rfl,
      parseIntHex_pair c1 h1 c2 h2, parseIntHex_pair c3 h3 c4 h4,
      parseIntHex_pair c5 h5 c6 h6, parseIntHex_pair c7 h7 c8 h8]
    rfl

/-- Witness for `C9_hexToRgba`: the error shape at `"xyz"` and the ok
shapes at `"#2e9fb9"` and `"2e9fb9aa"`. -/
theorem C9_hexToRgba_witness :
    (hexToRgba "xyz" = Except.error ()) ∧
    hexToRgba "#2e9fb9" = Except.ok
      ⟨some (((16 * hexDigitVal '2' + hexDigitVal 'e' : ℕ) : ℚ) / 255),
       some (((16 * hexDigitVal '9' + hexDigitVal 'f' : ℕ) : ℚ) / 255),
       some (((16 * hexDigitVal 'b' + hexDigitVal '9' : ℕ) : ℚ) / 255),
       some 1⟩ ∧
    hexToRgba "2e9fb9aa" = Except.ok
      ⟨some (((16 * hexDigitVal '2' + hexDigitVal 'e' : ℕ) : ℚ) / 255),
       some (((16 * hexDigitVal '9' + hexDigitVal 'f' : ℕ) : ℚ) / 255),
       some (((16 * hexDigitVal 'b' + hexDigitVal '9' : ℕ) : ℚ) / 255),
       some (((16 * hexDigitVal 'a' + hexDigitVal 'a' : ℕ) : ℚ) / 255)⟩ :=
  have h : '2' ∈ hexDigitChars ∧ 'e' ∈ hexDigitChars ∧ '9' ∈ hexDigitChars ∧
      'f' ∈ hexDigitChars ∧ 'b' ∈ hexDigitChars ∧ 'a' ∈ hexDigitChars := by decide
  ⟨(C9_hexToRgba.1 "xyz").mpr (by decide),
   (C9_hexToRgba.2.1 "#2e9fb9" '2' 'e' '9' 'f' 'b' '9' rfl h.1 h.2.1 h.2.2.1
      h.2.2.2.1 h.2.2.2.2.1 h.2.2.1).1,
   (C9_hexToRgba.2.2 "2e9fb9aa" '2' 'e' '9' 'f' 'b' '9' 'a' 'a' rfl h.1 h.2.1
      h.2.2.1 h.2.2.2.1 h.2.2.2.2.1 h.2.2.1 h.2.2.2.2.2 h.2.2.2.2.2).1⟩

/-! ## C7 : determineCategory precedence -/

/-- C7: `determineCategory` applies exactly the claimed precedence on the
lowercased `<collectionContext>/<name>` string: primitive keyword →
primitives; else semantic keyword → semantic; else a 2–3 digit numeral at
the end of the trimmed name → primitives; else a semantic name beginning →
semantic; else uncategorized.  It is a total function ("never throws"),
and it maps `"Blue/500"` to primitives and `"text/primary"` to
semantic. -/
theorem C7_determineCategory :
    (∀ name ctx,
      (PRIMITIVE_KEYWORDS.any (fun k => jsIncludes (jsToLower (ctx ++ "/" ++ name)) k) = true →
        determineCategory name ctx = TokenCategory.primitives) ∧
      (PRIMITIVE_KEYWORDS.any (fun k => jsIncludes (jsToLower (ctx ++ "/" ++ name)) k) = false →
        SEMANTIC_KEYWORDS.any (fun k => jsIncludes (jsToLower (ctx ++ "/" ++ name)) k) = true →
        determineCategory name ctx = TokenCategory.semantic) ∧
      (PRIMITIVE_KEYWORDS.any (fun k => jsIncludes (jsToLower (ctx ++ "/" ++ name)) k) = false →
        SEMANTIC_KEYWORDS.any (fun k => jsIncludes (jsToLower (ctx ++ "/" ++ name)) k) = false →
        testTwoOrThreeDigitsAtEnd (jsTrim name) = true →
        determineCategory name ctx = TokenCategory.primitives) ∧
      (PRIMITIVE_KEYWORDS.any (fun k => jsIncludes (jsToLower (ctx ++ "/" ++ name)) k) = false →
        SEMANTIC_KEYWORDS.any (fun k => jsIncludes (jsToLower (ctx ++ "/" ++ name)) k) = false →
        testTwoOrThreeDigitsAtEnd (jsTrim name) = false →
        SEMANTIC_STARTS.any (fun k => jsStartsWith (jsToLower name) k) = true →
        determineCategory name ctx = TokenCategory.semantic) ∧
      (PRIMITIVE_KEYWORDS.any (fun k => jsIncludes (jsToLower (ctx ++ "/" ++ name)) k) = false →
        SEMANTIC_KEYWORDS.any (fun k => jsIncludes (jsToLower (ctx ++ "/" ++ name)) k) = false →
        testTwoOrThreeDigitsAtEnd (jsTrim name) = false →
        SEMANTIC_STARTS.any (fun k => jsStartsWith (jsToLower name) k) = false →
        determineCategory name ctx = TokenCategory.uncategorized)) ∧
    determineCategory "Blue/500" = TokenCategory.primitives ∧
    determineCategory "text/primary" = TokenCategory.semantic := by
  refine ⟨fun name ctx => ⟨fun h1 => ?_, fun h1 h2 => ?_, fun h1 h2 h3 => ?_,
    fun h1 h2 h3 h4 => ?_, fun h1 h2 h3 h4 => ?_⟩, by decide, by decide⟩ <;>
    simp [determineCategory, *]

/-- Witness for `C7_determineCategory`: one instance per precedence
level. -/
theorem C7_determineCategory_witness :
    determineCategory "palette/blue" "" = TokenCategory.primitives ∧
    determineCategory "dark/accent" "" = TokenCategory.semantic ∧
    determineCategory "Blue/500" "" = TokenCategory.primitives ∧
    determineCategory "text/primary" "" = TokenCategory.semantic ∧
    determineCategory "brand" "" = TokenCategory.uncategorized :=
  ⟨(C7_determineCategory.1 "palette/blue" "").1 rfl,
   (C7_determineCategory.1 "dark/accent" "").2.1 rfl rfl,
   (C7_determineCategory.1 "Blue/500" "").2.2.1 rfl rfl rfl,
   (C7_determineCategory.1 "text/primary" "").2.2.2.1 rfl rfl rfl rfl,
   (C7_determineCategory.1 "brand" "").2.2.2.2 rfl rfl rfl rfl⟩

/-! ## C2 : rendering of unresolvable values -/

/-- C2 (amended): the renderer emits the literal `null` (in every format
and both alias modes) exactly for a variable with no Token for the
requested mode; when alias resolution failed but a Token exists
(`resolvedValue` is `undefined`), resolved-mode rendering falls back to
the direct value — for a color-typed variable the alias-pointer string is
emitted unchanged, not `null`.  `processValue` is total ("never
throws"). -/
theorem C2_null_only_on_missing_mode :
    (∀ ok v modeId options, assocLookup v.valuesByMode modeId = none →
        processValue ok v modeId options = ProcOut.pstr "null") ∧
    (∀ ok v modeId options tok s,
        assocLookup v.valuesByMode modeId = some tok →
        options.aliasMode = AliasMode.resolved →
        tok.resolvedValue = none →
        tok.value = StrNum.vstr s →
        jsStartsWith s "\x7b" = true →
        v.vtype = "color" →
        processValue ok v modeId options = ProcOut.pstr s) := by
  constructor
  · intro ok v modeId options h
    simp [processValue, h]
  · intro ok v modeId options tok s hl hm hr hv hs ht
    have hne : s ≠ "" := by
      intro he
      rw [he] at hs
      simp [jsStartsWith, List.isPrefixOf] at hs
    simp [processValue, hl, hm, hr, hv, hs, ht, formatColor, strOfStrNum, hne]

/-- C2 counterexample: a color variable whose only mode holds a broken
alias (`value = "\x7bx\x7d"`, `resolvedValue = undefined`): CSS export in
resolved mode emits `{x}`, not the literal `null` the claim requires. -/
theorem C2_counterexample :
    processValue zeroOklch c2Var "m" c2Opts = ProcOut.pstr "\x7bx\x7d" ∧
    ProcOut.pstr "\x7bx\x7d" ≠ ProcOut.pstr "null" :=
  ⟨by decide, by decide⟩

/-- Witness for `C2_null_only_on_missing_mode`: the missing-mode branch
and the fallback branch at concrete inputs. -/
theorem C2_null_only_on_missing_mode_witness :
    processValue zeroOklch c2Var "absent" c2Opts = ProcOut.pstr "null" ∧
    processValue zeroOklch c2Var "m" c2Opts = ProcOut.pstr "\x7bx\x7d" :=
  ⟨C2_null_only_on_missing_mode.1 zeroOklch c2Var "absent" c2Opts rfl,
   C2_null_only_on_missing_mode.2 zeroOklch c2Var "m" c2Opts
     ⟨StrNum.vstr "\x7bx\x7d", none⟩ "\x7bx\x7d" rfl rfl rfl rfl rfl rfl⟩

/-! ## C5 : alias-mode reference rendering -/

lemma string_wrap_data (n : String) :
    ("\x7b" ++ n ++ "\x7d").data = '{' :: (n.data ++ ['}']) := by
  obtain ⟨nd⟩ := n
  rfl

lemma jsStartsWith_wrap (n : String) : jsStartsWith ("\x7b" ++ n ++ "\x7d") "\x7b" = true := by
  simp [jsStartsWith, string_wrap_data, List.isPrefixOf]

lemma jsEndsWith_wrap (n : String) : jsEndsWith ("\x7b" ++ n ++ "\x7d") "\x7d" = true := by
  simp only [jsEndsWith, string_wrap_data, List.isSuffixOf]
  simp [List.isPrefixOf]

lemma jsSubstring_wrap (n : String) :
    jsSubstring ("\x7b" ++ n ++ "\x7d") 1 ((n.length : ℤ) + 1) = n := by
  obtain ⟨nd⟩ := n
  show jsSubstring _ 1 ((nd.length : ℤ) + 1) = _
  simp only [jsSubstring, string_wrap_data]
  have hlen : ('{' :: (nd ++ ['}'])).length = nd.length + 2 := by
    simp
  rw [hlen]
  have h1 : (if (1 : ℤ) < 0 then 0 else min (1 : ℤ).toNat (nd.length + 2)) = 1 := by
    simp
  have h2 : (if ((nd.length : ℤ) + 1) < 0 then 0
      else min ((nd.length : ℤ) + 1).toNat (nd.length + 2)) = nd.length + 1 := by
    have : ((nd.length : ℤ) + 1).toNat = nd.length + 1 := by omega
    rw [if_neg (by omega), this]
    omega
  rw [h1, h2]
  have hmin : min 1 (nd.length + 1) = 1 := by omega
  have hmax : max 1 (nd.length + 1) = nd.length + 1 := by omega
  rw [hmin, hmax]
  have htake : ('{' :: (nd ++ ['}'])).take (nd.length + 1) = '{' :: nd := by
    rw [List.take_succ_cons]
    congr 1
    exact List.take_left nd ['}']
  rw [htake]
  rfl

/-- C5: in alias mode an alias-pointer value `{n}` renders as a
format-specific reference instead of being resolved: `var(--…)` for CSS
and `$…` for SCSS with the dash normalization, `{…}` for plain JSON and a
`$ref` object for DTCG with the dot normalization. -/
theorem C5_alias_reference_rendering :
    ∀ (ok : JNum → JNum → JNum → JNum → String) (v : CollectionVariableDetail)
      (modeId : String) (options : ExportOptions) (tok : ModeToken) (n : String),
      assocLookup v.valuesByMode modeId = some tok →
      tok.value = StrNum.vstr ("\x7b" ++ n ++ "\x7d") →
      options.aliasMode = AliasMode.alias →
      processValue ok v modeId { options with format := ExpFormat.css }
          = ProcOut.pstr ("var(--" ++ normalizeDashName n ++ ")") ∧
      processValue ok v modeId { options with format := ExpFormat.scss }
          = ProcOut.pstr ("$" ++ normalizeDashName n) ∧
      processValue ok v modeId { options with format := ExpFormat.json }
          = ProcOut.pstr ("\x7b" ++ normalizeDotName n ++ "\x7d") ∧
      processValue ok v modeId { options with format := ExpFormat.dtcg }
          = ProcOut.pref (normalizeDotName n) := by
  intro ok v modeId options tok n hl hv hm
  have hs := jsStartsWith_wrap n
  have he := jsEndsWith_wrap n
  have hsub := jsSubstring_wrap n
  refine ⟨?_, ?_, ?_, ?_⟩ <;>
    simp [processValue, hl, hv, hm, hs, he, hsub]

/-- Witness for `C5_alias_reference_rendering` at the pointer
`{Color/Primary Blue}`. -/
theorem C5_alias_reference_rendering_witness :
    processValue zeroOklch c5Var "m" { c5Opts ExpFormat.css with format := ExpFormat.css }
        = ProcOut.pstr ("var(--" ++ normalizeDashName "Color/Primary Blue" ++ ")") ∧
    processValue zeroOklch c5Var "m" { c5Opts ExpFormat.css with format := ExpFormat.scss }
        = ProcOut.pstr ("$" ++ normalizeDashName "Color/Primary Blue") ∧
    processValue zeroOklch c5Var "m" { c5Opts ExpFormat.css with format := ExpFormat.json }
        = ProcOut.pstr ("\x7b" ++ normalizeDotName "Color/Primary Blue" ++ "\x7d") ∧
    processValue zeroOklch c5Var "m" { c5Opts ExpFormat.css with format := ExpFormat.dtcg }
        = ProcOut.pref (normalizeDotName "Color/Primary Blue") :=
  C5_alias_reference_rendering zeroOklch c5Var "m" (c5Opts ExpFormat.css)
    ⟨StrNum.vstr "\x7bColor/Primary Blue\x7d", none⟩ "Color/Primary Blue"
    rfl rfl rfl

/-! ## Resolver lemmas (C1, C3, C4) -/

lemma assocLookup_mem {α : Type} {l : List (String × α)} {k : String} {x : α}
    (h : assocLookup l k = some x) : ∃ p ∈ l, p.2 = x := by
  unfold assocLookup at h
  cases hf : l.find? (fun p => p.1 == k) with
  | none => rw [hf] at h; simp at h
  | some p =>
    rw [hf] at h
    simp only [Option.map_some'] at h
    exact ⟨p, List.mem_of_find?_eq_some hf, by injection h⟩

lemma mem_graphKeys {vm : List (String × FigVariable)} {cm : List (String × VariableCollection)}
    {tv : FigVariable} {c : VariableCollection} {m : Mode}
    (hv : ∃ p ∈ vm, p.2 = tv) (hc : ∃ p ∈ cm, p.2 = c) (hm : m ∈ c.modes) :
    refKeyOf tv m.modeId ∈ graphKeys vm cm := by
  obtain ⟨pv, hpv, rfl⟩ := hv
  obtain ⟨pc, hpc, rfl⟩ := hc
  unfold graphKeys refKeyOf
  rw [List.mem_toFinset]
  exact List.mem_flatMap.mpr ⟨pv.2.id, List.mem_map.mpr ⟨pv, hpv, rfl⟩,
    List.mem_map.mpr ⟨m, List.mem_flatMap.mpr ⟨pc, hpc, hm⟩, rfl⟩⟩

lemma chooseTargetModeId_mem (coll targetColl : VariableCollection) (modeId : String)
    (m0 : Mode) (rest : List Mode) (hmodes : targetColl.modes = m0 :: rest) :
    ∃ m ∈ targetColl.modes, chooseTargetModeId coll targetColl modeId m0 = m.modeId := by
  have hm0 : m0 ∈ targetColl.modes := by
    rw [hmodes]
    exact List.mem_cons_self _ _
  unfold chooseTargetModeId
  cases (coll.modes.find? (fun m => m.modeId == modeId)).map Mode.name with
  | none => exact ⟨m0, hm0, rfl⟩
  | some nm =>
    by_cases hnm : nm = ""
    · exact ⟨m0, hm0, by dsimp only; rw [if_pos hnm]⟩
    · cases hf : targetColl.modes.find? (fun m => m.name == nm) with
      | none => exact ⟨m0, hm0, by dsimp only; rw [if_neg hnm, hf]⟩
      | some mm => exact ⟨mm, List.mem_of_find?_eq_some hf, by dsimp only; rw [if_neg hnm, hf]⟩

lemma sdiff_insert_card {K V : Finset String} {k : String} (hk : k ∈ K) (hnv : k ∉ V) :
    (K \ insert k V).card = (K \ V).card - 1 := by
  have he : K \ insert k V = (K \ V).erase k := by
    ext x
    simp only [Finset.mem_sdiff, Finset.mem_erase, Finset.mem_insert]
    tauto
  rw [he, Finset.card_erase_of_mem (Finset.mem_sdiff.mpr ⟨hk, hnv⟩)]

lemma sdiff_insert_of_not_mem {K V : Finset String} {k : String} (hk : k ∉ K) :
    K \ insert k V = K \ V := by
  ext x
  simp only [Finset.mem_sdiff, Finset.mem_insert]
  constructor
  · rintro ⟨hx, h2⟩
    exact ⟨hx, fun hv => h2 (Or.inr hv)⟩
  · rintro ⟨hx, h2⟩
    refine ⟨hx, fun hor => ?_⟩
    cases hor with
    | inl he => exact hk (he ▸ hx)
    | inr hv => exact h2 hv

/-! Step lemmas: one unfolding of `resolveAux` per shape of the raw
value, so later inductions never manipulate the compiled match directly. -/

lemma resolveAux_step_visited (vm : List (String × FigVariable))
    (cm : List (String × VariableCollection)) (fuel : ℕ) (v : FigVariable)
    (modeId : String) (coll : VariableCollection) (visited : List String)
    (h : refKeyOf v modeId ∈ visited) :
    resolveAux vm cm (fuel + 1) v modeId coll visited = (Except.ok none, 0) := by
  rw [resolveAux, if_pos h]

lemma resolveAux_step_nonalias (vm : List (String × FigVariable))
    (cm : List (String × VariableCollection)) (fuel : ℕ) (v : FigVariable)
    (modeId : String) (coll : VariableCollection) (visited : List String)
    (rv : Option VarValue)
    (hvis : refKeyOf v modeId ∉ visited)
    (hraw : assocLookup v.valuesByMode modeId = rv)
    (hna : isAliasVal rv = false) :
    resolveAux vm cm (fuel + 1) v modeId coll visited =
      (Except.ok (nonAliasValue v rv), 0) := by
  rw [resolveAux, if_neg hvis, hraw]
  cases rv with
  | none => rfl
  | some w =>
    cases w with
    | «alias» i => simp [isAliasVal] at hna
    | color r g b a => rfl
    | str s => rfl
    | num q => rfl
    | bool b => rfl

lemma resolveAux_step_alias (vm : List (String × FigVariable))
    (cm : List (String × VariableCollection)) (fuel : ℕ) (v : FigVariable)
    (modeId : String) (coll : VariableCollection) (visited : List String)
    (aliasId : String)
    (hvis : refKeyOf v modeId ∉ visited)
    (hraw : assocLookup v.valuesByMode modeId = some (VarValue.alias aliasId)) :
    resolveAux vm cm (fuel + 1) v modeId coll visited =
      (match assocLookup vm aliasId with
       | none => (Except.ok none, 0)
       | some targetVar =>
         match assocLookup cm targetVar.variableCollectionId with
         | none => (Except.ok none, 0)
         | some targetColl =>
           match targetColl.modes with
           | [] => (Except.error (), 0)
           | m0 :: _ =>
             let r := resolveAux vm cm fuel targetVar
               (chooseTargetModeId coll targetColl modeId m0) targetColl
               (refKeyOf v modeId :: visited)
             (r.1, r.2 + 1)) := by
  rw [resolveAux, if_neg hvis, hraw]

/-- Fuel irrelevance: once the fuel strictly dominates the number of
not-yet-visited graph keys (with one unit of slack when the starting key
lies outside the graph), the result of `resolveAux` does not depend on
it.  This is the formal content of termination. -/
lemma resolveAux_stable (vm : List (String × FigVariable))
    (cm : List (String × VariableCollection)) :
    ∀ (fuel1 fuel2 : ℕ) (v : FigVariable) (modeId : String) (coll : VariableCollection)
      (visited : List String),
      ((refKeyOf v modeId ∈ graphKeys vm cm ∧
          (graphKeys vm cm \ visited.toFinset).card < fuel1 ∧
          (graphKeys vm cm \ visited.toFinset).card < fuel2) ∨
        ((graphKeys vm cm \ visited.toFinset).card + 1 < fuel1 ∧
          (graphKeys vm cm \ visited.toFinset).card + 1 < fuel2)) →
      resolveAux vm cm fuel1 v modeId coll visited =
        resolveAux vm cm fuel2 v modeId coll visited := by
  intro fuel1
  induction fuel1 with
  | zero =>
    intro fuel2 v modeId coll visited h
    rcases h with ⟨_, ha, _⟩ | ⟨ha, _⟩ <;> omega
  | succ n ih =>
    intro fuel2 v modeId coll visited h
    cases fuel2 with
    | zero => rcases h with ⟨_, _, hb⟩ | ⟨_, hb⟩ <;> omega
    | succ m =>
      by_cases hvis : refKeyOf v modeId ∈ visited
      · rw [resolveAux_step_visited vm cm n v modeId coll visited hvis,
          resolveAux_step_visited vm cm m v modeId coll visited hvis]
      · cases hraw : assocLookup v.valuesByMode modeId with
        | none =>
          rw [resolveAux_step_nonalias vm cm n v modeId coll visited none hvis hraw rfl,
            resolveAux_step_nonalias vm cm m v modeId coll visited none hvis hraw rfl]
        | some w =>
          cases w with
          | «alias» aliasId =>
            rw [resolveAux_step_alias vm cm n v modeId coll visited aliasId hvis hraw,
              resolveAux_step_alias vm cm m v modeId coll visited aliasId hvis hraw]
            cases htv : assocLookup vm aliasId with
            | none => rfl
            | some targetVar =>
              dsimp only
              cases htc : assocLookup cm targetVar.variableCollectionId with
              | none => rfl
              | some targetColl =>
                dsimp only
                cases hmodes : targetColl.modes with
                | nil => rfl
                | cons m0 rest =>
                  dsimp only
                  obtain ⟨mm, hmm, heq⟩ :=
                    chooseTargetModeId_mem coll targetColl modeId m0 rest hmodes
                  have hkey' : refKeyOf targetVar (chooseTargetModeId coll targetColl modeId m0)
                      ∈ graphKeys vm cm := by
                    rw [heq]
                    exact mem_graphKeys (assocLookup_mem htv) (assocLookup_mem htc) hmm
                  have hins : (refKeyOf v modeId :: visited).toFinset
                      = insert (refKeyOf v modeId) visited.toFinset := List.toFinset_cons
                  have hnv : refKeyOf v modeId ∉ visited.toFinset :=
                    fun hx => hvis (List.mem_toFinset.mp hx)
                  have hcard :
                      (graphKeys vm cm \ (refKeyOf v modeId :: visited).toFinset).card < n ∧
                      (graphKeys vm cm \ (refKeyOf v modeId :: visited).toFinset).card < m := by
                    rw [hins]
                    by_cases hkK : refKeyOf v modeId ∈ graphKeys vm cm
                    · have h1 := sdiff_insert_card hkK hnv
                      have h2 : 0 < (graphKeys vm cm \ visited.toFinset).card :=
                        Finset.card_pos.mpr ⟨_, Finset.mem_sdiff.mpr ⟨hkK, hnv⟩⟩
                      rcases h with ⟨_, ha, hb⟩ | ⟨ha, hb⟩ <;> omega
                    · rw [sdiff_insert_of_not_mem hkK]
                      rcases h with ⟨hk, _, _⟩ | ⟨ha, hb⟩
                      · exact absurd hk hkK
                      · omega
                  have hrec := ih m targetVar (chooseTargetModeId coll targetColl modeId m0)
                    targetColl (refKeyOf v modeId :: visited) (Or.inl ⟨hkey', hcard.1, hcard.2⟩)
                  simp only [hrec]
          | color r g b a =>
            rw [resolveAux_step_nonalias vm cm n v modeId coll visited _ hvis hraw rfl,
              resolveAux_step_nonalias vm cm m v modeId coll visited _ hvis hraw rfl]
          | str s =>
            rw [resolveAux_step_nonalias vm cm n v modeId coll visited _ hvis hraw rfl,
              resolveAux_step_nonalias vm cm m v modeId coll visited _ hvis hraw rfl]
          | num q =>
            rw [resolveAux_step_nonalias vm cm n v modeId coll visited _ hvis hraw rfl,
              resolveAux_step_nonalias vm cm m v modeId coll visited _ hvis hraw rfl]
          | bool b =>
            rw [resolveAux_step_nonalias vm cm n v modeId coll visited _ hvis hraw rfl,
              resolveAux_step_nonalias vm cm m v modeId coll visited _ hvis hraw rfl]

/-- Each recursive call consumes a distinct unvisited graph key, so the
number of recursive steps is bounded by the count of unvisited keys. -/
lemma resolveAux_steps_le (vm : List (String × FigVariable))
    (cm : List (String × VariableCollection)) :
    ∀ (fuel : ℕ) (v : FigVariable) (modeId : String) (coll : VariableCollection)
      (visited : List String),
      refKeyOf v modeId ∈ graphKeys vm cm →
      (resolveAux vm cm fuel v modeId coll visited).2 ≤
        (graphKeys vm cm \ visited.toFinset).card := by
  intro fuel
  induction fuel with
  | zero =>
    intro v modeId coll visited _
    simp [resolveAux]
  | succ n ih =>
    intro v modeId coll visited hkey
    by_cases hvis : refKeyOf v modeId ∈ visited
    · rw [resolveAux_step_visited vm cm n v modeId coll visited hvis]
      exact Nat.zero_le _
    · cases hraw : assocLookup v.valuesByMode modeId with
      | none =>
        rw [resolveAux_step_nonalias vm cm n v modeId coll visited none hvis hraw rfl]
        exact Nat.zero_le _
      | some w =>
        cases w with
        | «alias» aliasId =>
          rw [resolveAux_step_alias vm cm n v modeId coll visited aliasId hvis hraw]
          cases htv : assocLookup vm aliasId with
          | none => exact Nat.zero_le _
          | some targetVar =>
            dsimp only
            cases htc : assocLookup cm targetVar.variableCollectionId with
            | none => exact Nat.zero_le _
            | some targetColl =>
              dsimp only
              cases hmodes : targetColl.modes with
              | nil => exact Nat.zero_le _
              | cons m0 rest =>
                dsimp only
                obtain ⟨mm, hmm, heq⟩ :=
                  chooseTargetModeId_mem coll targetColl modeId m0 rest hmodes
                have hkey' : refKeyOf targetVar (chooseTargetModeId coll targetColl modeId m0)
                    ∈ graphKeys vm cm := by
                  rw [heq]
                  exact mem_graphKeys (assocLookup_mem htv) (assocLookup_mem htc) hmm
                have hnv : refKeyOf v modeId ∉ visited.toFinset :=
                  fun hx => hvis (List.mem_toFinset.mp hx)
                have h1 := sdiff_insert_card hkey hnv
                have h2 : 0 < (graphKeys vm cm \ visited.toFinset).card :=
                  Finset.card_pos.mpr ⟨_, Finset.mem_sdiff.mpr ⟨hkey, hnv⟩⟩
                have hch := ih targetVar (chooseTargetModeId coll targetColl modeId m0)
                  targetColl (refKeyOf v modeId :: visited) hkey'
                rw [List.toFinset_cons, h1] at hch
                show (resolveAux vm cm n targetVar
                  (chooseTargetModeId coll targetColl modeId m0) targetColl
                  (refKeyOf v modeId :: visited)).2 + 1 ≤ _
                omega
        | color r g b a =>
          rw [resolveAux_step_nonalias vm cm n v modeId coll visited _ hvis hraw rfl]
          exact Nat.zero_le _
        | str s =>
          rw [resolveAux_step_nonalias vm cm n v modeId coll visited _ hvis hraw rfl]
          exact Nat.zero_le _
        | num q =>
          rw [resolveAux_step_nonalias vm cm n v modeId coll visited _ hvis hraw rfl]
          exact Nat.zero_le _
        | bool b =>
          rw [resolveAux_step_nonalias vm cm n v modeId coll visited _ hvis hraw rfl]
          exact Nat.zero_le _

/-- With enough fuel, the only throw site of the resolver is
`targetCollection.modes[0]` on a collection with no modes: when every
collection of the map has at least one mode, no error is produced. -/
lemma resolveAux_ne_error (vm : List (String × FigVariable))
    (cm : List (String × VariableCollection))
    (hcm : ∀ p ∈ cm, p.2.modes ≠ ([] : List Mode)) :
    ∀ (fuel : ℕ) (v : FigVariable) (modeId : String) (coll : VariableCollection)
      (visited : List String),
      ((refKeyOf v modeId ∈ graphKeys vm cm ∧
          (graphKeys vm cm \ visited.toFinset).card < fuel) ∨
        ((graphKeys vm cm \ visited.toFinset).card + 1 < fuel)) →
      (resolveAux vm cm fuel v modeId coll visited).1 ≠ Except.error () := by
  intro fuel
  induction fuel with
  | zero =>
    intro v modeId coll visited h
    rcases h with ⟨_, ha⟩ | ha <;> omega
  | succ n ih =>
    intro v modeId coll visited h
    by_cases hvis : refKeyOf v modeId ∈ visited
    · rw [resolveAux_step_visited vm cm n v modeId coll visited hvis]
      exact fun hx => Except.noConfusion hx
    · cases hraw : assocLookup v.valuesByMode modeId with
      | none =>
        rw [resolveAux_step_nonalias vm cm n v modeId coll visited none hvis hraw rfl]
        exact fun hx => Except.noConfusion hx
      | some w =>
        cases w with
        | «alias» aliasId =>
          rw [resolveAux_step_alias vm cm n v modeId coll visited aliasId hvis hraw]
          cases htv : assocLookup vm aliasId with
          | none => exact fun hx => Except.noConfusion hx
          | some targetVar =>
            dsimp only
            cases htc : assocLookup cm targetVar.variableCollectionId with
            | none => exact fun hx => Except.noConfusion hx
            | some targetColl =>
              dsimp only
              cases hmodes : targetColl.modes with
              | nil =>
                obtain ⟨p, hp, hpe⟩ := assocLookup_mem htc
                exact absurd (hpe ▸ hmodes) (hcm p hp)
              | cons m0 rest =>
                dsimp only
                obtain ⟨mm, hmm, heq⟩ :=
                  chooseTargetModeId_mem coll targetColl modeId m0 rest hmodes
                have hkey' : refKeyOf targetVar (chooseTargetModeId coll targetColl modeId m0)
                    ∈ graphKeys vm cm := by
                  rw [heq]
                  exact mem_graphKeys (assocLookup_mem htv) (assocLookup_mem htc) hmm
                have hnv : refKeyOf v modeId ∉ visited.toFinset :=
                  fun hx => hvis (List.mem_toFinset.mp hx)
                have hcard :
                    (graphKeys vm cm \ (refKeyOf v modeId :: visited).toFinset).card < n := by
                  rw [List.toFinset_cons]
                  by_cases hkK : refKeyOf v modeId ∈ graphKeys vm cm
                  · have h1 := sdiff_insert_card hkK hnv
                    have h2 : 0 < (graphKeys vm cm \ visited.toFinset).card :=
                      Finset.card_pos.mpr ⟨_, Finset.mem_sdiff.mpr ⟨hkK, hnv⟩⟩
                    rcases h with ⟨_, ha⟩ | ha <;> omega
                  · rw [sdiff_insert_of_not_mem hkK]
                    rcases h with ⟨hk, _⟩ | ha
                    · exact absurd hk hkK
                    · omega
                have hrec := ih targetVar (chooseTargetModeId coll targetColl modeId m0)
                  targetColl (refKeyOf v modeId :: visited) (Or.inl ⟨hkey', hcard⟩)
                exact hrec
        | color r g b a =>
          rw [resolveAux_step_nonalias vm cm n v modeId coll visited _ hvis hraw rfl]
          exact fun hx => Except.noConfusion hx
        | str s =>
          rw [resolveAux_step_nonalias vm cm n v modeId coll visited _ hvis hraw rfl]
          exact fun hx => Except.noConfusion hx
        | num q =>
          rw [resolveAux_step_nonalias vm cm n v modeId coll visited _ hvis hraw rfl]
          exact fun hx => Except.noConfusion hx
        | bool b =>
          rw [resolveAux_step_nonalias vm cm n v modeId coll visited _ hvis hraw rfl]
          exact fun hx => Except.noConfusion hx

/-! ## C1 : termination and step bound of alias resolution -/

/-- C1: (i) a `variableId:modeId` pair already in `visited` returns
`undefined` immediately, with zero recursive steps; (ii) over the alias
cycle `A→B→A` resolution returns `undefined` for both `A` and `B`;
(iii) from a `(variable, mode)` pair of the graph, the number of recursive
steps never exceeds the number of distinct `variableId:modeId` pairs of
the graph; (iv) every fuel at or above the bound used by
`resolveVariableValue` produces the same result — the recursion
terminates. -/
theorem C1_resolution_terminates :
    (∀ vm cm fuel v modeId coll visited,
      refKeyOf v modeId ∈ visited →
      resolveAux vm cm (fuel + 1) v modeId coll visited = (Except.ok none, 0)) ∧
    (resolveVariableValue cycleVarMap cycleCollMap cycleVarA "m1" cycleColl []
        = Except.ok none ∧
      resolveVariableValue cycleVarMap cycleCollMap cycleVarB "m1" cycleColl []
        = Except.ok none) ∧
    (∀ vm cm fuel v modeId coll visited,
      refKeyOf v modeId ∈ graphKeys vm cm →
      (resolveAux vm cm fuel v modeId coll visited).2 ≤ (graphKeys vm cm).card) ∧
    (∀ vm cm v modeId coll visited fuel,
      (graphKeys vm cm).card + 2 ≤ fuel →
      (resolveAux vm cm fuel v modeId coll visited).1 =
        resolveVariableValue vm cm v modeId coll visited) := by
  refine ⟨fun vm cm fuel v modeId coll visited h =>
      resolveAux_step_visited vm cm fuel v modeId coll visited h,
    ⟨by decide, by decide⟩,
    fun vm cm fuel v modeId coll visited hkey =>
      le_trans (resolveAux_steps_le vm cm fuel v modeId coll visited hkey)
        (Finset.card_le_card Finset.sdiff_subset),
    fun vm cm v modeId coll visited fuel hfuel => ?_⟩
  unfold resolveVariableValue
  have hb : (graphKeys vm cm \ visited.toFinset).card ≤ (graphKeys vm cm).card :=
    Finset.card_le_card Finset.sdiff_subset
  exact congrArg Prod.fst
    (resolveAux_stable vm cm fuel ((graphKeys vm cm).card + 2) v modeId coll visited
      (Or.inr ⟨by omega, by omega⟩))

/-- Witness for `C1_resolution_terminates` at the `A→B→A` cycle. -/
theorem C1_resolution_terminates_witness :
    resolveAux cycleVarMap cycleCollMap 5 cycleVarA "m1" cycleColl ["A:m1"]
        = (Except.ok none, 0) ∧
    (resolveAux cycleVarMap cycleCollMap 9 cycleVarA "m1" cycleColl []).2
        ≤ (graphKeys cycleVarMap cycleCollMap).card ∧
    (resolveAux cycleVarMap cycleCollMap 9 cycleVarA "m1" cycleColl []).1
        = resolveVariableValue cycleVarMap cycleCollMap cycleVarA "m1" cycleColl [] :=
  ⟨C1_resolution_terminates.1 cycleVarMap cycleCollMap 4 cycleVarA "m1" cycleColl
      ["A:m1"] (by decide),
   C1_resolution_terminates.2.2.1 cycleVarMap cycleCollMap 9 cycleVarA "m1" cycleColl
      [] (by decide),
   C1_resolution_terminates.2.2.2 cycleVarMap cycleCollMap cycleVarA "m1" cycleColl
      [] 9 (by decide)⟩

/-! ## C3 : resolver failures are data, not exceptions -/

/-- C3 (amended): provided every collection of the collection map has at
least one mode, `resolveVariableValue` never throws; a missing target
variable (broken link) or a missing target collection yields `undefined`.
(As frozen, the claim fails for a target collection with an empty mode
list; see the counterexample.) -/
theorem C3_resolver_failures_are_data :
    (∀ vm cm v modeId coll visited,
      (∀ p ∈ cm, p.2.modes ≠ ([] : List Mode)) →
      resolveVariableValue vm cm v modeId coll visited ≠ Except.error ()) ∧
    (∀ vm cm v modeId coll visited aliasId,
      refKeyOf v modeId ∉ visited →
      assocLookup v.valuesByMode modeId = some (VarValue.alias aliasId) →
      assocLookup vm aliasId = none →
      resolveVariableValue vm cm v modeId coll visited = Except.ok none) ∧
    (∀ vm cm v modeId coll visited aliasId targetVar,
      refKeyOf v modeId ∉ visited →
      assocLookup v.valuesByMode modeId = some (VarValue.alias aliasId) →
      assocLookup vm aliasId = some targetVar →
      assocLookup cm targetVar.variableCollectionId = none →
      resolveVariableValue vm cm v modeId coll visited = Except.ok none) := by
  refine ⟨fun vm cm v modeId coll visited hcm => ?_,
    fun vm cm v modeId coll visited aliasId hvis hraw htv => ?_,
    fun vm cm v modeId coll visited aliasId targetVar hvis hraw htv htc => ?_⟩
  · unfold resolveVariableValue
    apply resolveAux_ne_error vm cm hcm
    have hb : (graphKeys vm cm \ visited.toFinset).card ≤ (graphKeys vm cm).card :=
      Finset.card_le_card Finset.sdiff_subset
    exact Or.inr (by omega)
  · unfold resolveVariableValue
    have h2 : (graphKeys vm cm).card + 2 = ((graphKeys vm cm).card + 1) + 1 := by omega
    rw [h2, resolveAux_step_alias vm cm _ v modeId coll visited aliasId hvis hraw, htv]
  · unfold resolveVariableValue
    have h2 : (graphKeys vm cm).card + 2 = ((graphKeys vm cm).card + 1) + 1 := by omega
    rw [h2, resolveAux_step_alias vm cm _ v modeId coll visited aliasId hvis hraw, htv]
    dsimp only
    rw [htc]

/-- C3 counterexample: an alias whose target lives in a collection with an
empty mode list makes the source index `modes[0]` and throw, so the claim
"never throws for any input" fails as frozen. -/
theorem C3_counterexample :
    resolveVariableValue c3VarMap c3CollMap c3SrcVar "m" c3SrcColl [] =
      Except.error () := by
  decide

/-- Witness for `C3_resolver_failures_are_data` at concrete inputs. -/
theorem C3_resolver_failures_are_data_witness :
    resolveVariableValue cycleVarMap cycleCollMap cycleVarA "m1" cycleColl []
        ≠ Except.error () ∧
    resolveVariableValue c3VarMap c3CollMap c3BrokenVar "m" c3SrcColl []
        = Except.ok none ∧
    resolveVariableValue c3VarMap2 c3CollMap c3RefVar "m" c3SrcColl []
        = Except.ok none :=
  ⟨C3_resolver_failures_are_data.1 cycleVarMap cycleCollMap cycleVarA "m1" cycleColl
      [] (by decide),
   C3_resolver_failures_are_data.2.1 c3VarMap c3CollMap c3BrokenVar "m" c3SrcColl
      [] "Z" (List.not_mem_nil _) rfl rfl,
   C3_resolver_failures_are_data.2.2 c3VarMap2 c3CollMap c3RefVar "m" c3SrcColl
      [] "U" c3OrphanTarget (List.not_mem_nil _) rfl rfl rfl⟩

/-! ## C4 : cross-collection mode choice -/

/-- C4 (amended): an alias into another collection recurses into the
target variable with the mode id produced by `chooseTargetModeId` and the
same visited set extended with the current key.  The choice matches the
current mode's display name against the target collection's mode names
only when the current mode is found *and its name is nonempty* (JavaScript
truthiness of `if (currentModeName)`); with no current mode, an empty
name, or no name match, it falls back to the target collection's first
declared mode. -/
theorem C4_alias_mode_matching :
    (∀ vm cm fuel v modeId coll visited aliasId targetVar targetColl m0 rest,
      refKeyOf v modeId ∉ visited →
      assocLookup v.valuesByMode modeId = some (VarValue.alias aliasId) →
      assocLookup vm aliasId = some targetVar →
      assocLookup cm targetVar.variableCollectionId = some targetColl →
      targetColl.modes = m0 :: rest →
      resolveAux vm cm (fuel + 1) v modeId coll visited =
        ((resolveAux vm cm fuel targetVar (chooseTargetModeId coll targetColl modeId m0)
            targetColl (refKeyOf v modeId :: visited)).1,
         (resolveAux vm cm fuel targetVar (chooseTargetModeId coll targetColl modeId m0)
            targetColl (refKeyOf v modeId :: visited)).2 + 1)) ∧
    (∀ coll targetColl modeId m0 cur mm,
      coll.modes.find? (fun m => m.modeId == modeId) = some cur →
      cur.name ≠ "" →
      targetColl.modes.find? (fun m => m.name == cur.name) = some mm →
      chooseTargetModeId coll targetColl modeId m0 = mm.modeId) ∧
    (∀ coll targetColl modeId m0 cur,
      coll.modes.find? (fun m => m.modeId == modeId) = some cur →
      cur.name ≠ "" →
      targetColl.modes.find? (fun m => m.name == cur.name) = none →
      chooseTargetModeId coll targetColl modeId m0 = m0.modeId) ∧
    (∀ coll targetColl modeId m0,
      coll.modes.find? (fun m => m.modeId == modeId) = none →
      chooseTargetModeId coll targetColl modeId m0 = m0.modeId) ∧
    (∀ coll targetColl modeId m0 cur,
      coll.modes.find? (fun m => m.modeId == modeId) = some cur →
      cur.name = "" →
      chooseTargetModeId coll targetColl modeId m0 = m0.modeId) := by
  refine ⟨fun vm cm fuel v modeId coll visited aliasId targetVar targetColl m0 rest
      hvis hraw htv htc hmodes => ?_,
    fun coll targetColl modeId m0 cur mm hcur hname hfind => ?_,
    fun coll targetColl modeId m0 cur hcur hname hfind => ?_,
    fun coll targetColl modeId m0 hcur => ?_,
    fun coll targetColl modeId m0 cur hcur hname => ?_⟩
  · rw [resolveAux_step_alias vm cm fuel v modeId coll visited aliasId hvis hraw, htv]
    dsimp only
    rw [htc]
    dsimp only
    rw [hmodes]
  · unfold chooseTargetModeId
    rw [hcur]
    simp only [Option.map_some']
    rw [if_neg hname, hfind]
  · unfold chooseTargetModeId
    rw [hcur]
    simp only [Option.map_some']
    rw [if_neg hname, hfind]
  · unfold chooseTargetModeId
    rw [hcur]
    simp only [Option.map_none']
  · unfold chooseTargetModeId
    rw [hcur]
    simp only [Option.map_some']
    rw [if_pos hname]

/-- C4 counterexample: the current mode is displayed as `""` and the
target collection has a mode named `""` (its second mode, `t2`, holding
the value 2); a name match exists, yet the resolver returns the first
mode's value 1 — JavaScript truthiness skips the matching for empty
names, so the claim as frozen fails. -/
theorem C4_counterexample :
    resolveVariableValue c4VarMap c4CollMap c4VarA "m1" c4CollSrc [] =
      Except.ok (some (ResolvedVal.rnum 1)) ∧
    (c4CollTgt.modes.find? (fun m => m.name == "")).map Mode.modeId = some "t2" ∧
    assocLookup c4VarB.valuesByMode "t2" = some (VarValue.num 2) ∧
    chooseTargetModeId c4CollSrc c4CollTgt "m1" ⟨"t1", "X"⟩ = "t1" ∧
    ("t1" : String) ≠ "t2" :=
  ⟨by decide, by decide, by decide, by decide, by decide⟩

/-- Witness for `C4_alias_mode_matching` at concrete inputs. -/
theorem C4_alias_mode_matching_witness :
    resolveAux cycleVarMap cycleCollMap 5 cycleVarA "m1" cycleColl [] =
      ((resolveAux cycleVarMap cycleCollMap 4 cycleVarB
          (chooseTargetModeId cycleColl cycleColl "m1" ⟨"m1", "Mode 1"⟩) cycleColl
          (refKeyOf cycleVarA "m1" :: [])).1,
       (resolveAux cycleVarMap cycleCollMap 4 cycleVarB
          (chooseTargetModeId cycleColl cycleColl "m1" ⟨"m1", "Mode 1"⟩) cycleColl
          (refKeyOf cycleVarA "m1" :: [])).2 + 1) ∧
    chooseTargetModeId c4CollSrc c4CollTgt "m1" ⟨"t1", "X"⟩ = "t1" :=
  ⟨C4_alias_mode_matching.1 cycleVarMap cycleCollMap 4 cycleVarA "m1" cycleColl []
      "B" cycleVarB cycleColl ⟨"m1", "Mode 1"⟩ [] (List.not_mem_nil _) rfl rfl rfl rfl,
   C4_alias_mode_matching.2.2.2.2 c4CollSrc c4CollTgt "m1" ⟨"t1", "X"⟩ ⟨"m1", ""⟩
      rfl rfl⟩

/-! ## C10 : the components category is never produced -/

lemma determineCategory_ne_components (name ctx : String) :
    determineCategory name ctx ≠ TokenCategory.components := by
  simp only [determineCategory]
  split_ifs <;> simp

lemma addToTokens_components (t : DesignTokensM) (cat : TokenCategory)
    (path : List String) (tok : TokenValueM) (h : cat ≠ TokenCategory.components) :
    (addToTokens t cat path tok).components = t.components := by
  cases cat with
  | components => exact absurd rfl h
  | primitives => rfl
  | semantic => rfl
  | uncategorized => rfl

lemma scanStyleStep_components (t : DesignTokensM) (s : PaintStyle) :
    (scanStyleStep t s).components = t.components := by
  unfold scanStyleStep
  cases hps : s.paints with
  | nil => rfl
  | cons p ps =>
    dsimp only
    by_cases hp : p.ptype = "SOLID"
    · rw [if_pos hp]
      exact addToTokens_components _ _ _ _ (determineCategory_ne_components _ _)
    · rw [if_neg hp]

lemma scanVariableStep_components (cmn : List (String × String)) (t : DesignTokensM)
    (v : FigVariable) :
    (scanVariableStep cmn t v).components = t.components := by
  unfold scanVariableStep
  by_cases hc : v.resolvedType = "COLOR"
  · rw [if_pos hc]
    cases hvm : v.valuesByMode with
    | nil => rfl
    | cons e rest =>
      dsimp only
      cases e.2 with
      | «alias» i => rfl
      | color r g b a =>
        exact addToTokens_components _ _ _ _ (determineCategory_ne_components _ _)
      | str s => rfl
      | num q => rfl
      | bool b => rfl
  · rw [if_neg hc]

lemma foldl_scanStyleStep_components :
    ∀ (l : List PaintStyle) (t : DesignTokensM),
      (l.foldl scanStyleStep t).components = t.components := by
  intro l
  induction l with
  | nil => intro t; rfl
  | cons s rest ih =>
    intro t
    rw [List.foldl_cons, ih, scanStyleStep_components]

lemma foldl_scanVariableStep_components (cmn : List (String × String)) :
    ∀ (l : List FigVariable) (t : DesignTokensM),
      (l.foldl (scanVariableStep cmn) t).components = t.components := by
  intro l
  induction l with
  | nil => intro t; rfl
  | cons v rest ih =>
    intro t
    rw [List.foldl_cons, ih, scanVariableStep_components]

/-- C10: no branch of `determineCategory` produces the `components`
category, so after any scan the `components` subtree has received no
token, is still empty, and is deleted from the returned tree. -/
theorem C10_components_never_populated :
    (∀ name ctx, determineCategory name ctx ≠ TokenCategory.components) ∧
    (∀ (ps : List PaintStyle) (vs : List FigVariable) (cs : List VariableCollection),
      (scanAllTokens ps vs cs).components = none) := by
  refine ⟨determineCategory_ne_components, fun ps vs cs => ?_⟩
  show cleanupCategory
      ((vs.foldl (scanVariableStep (cs.map (fun c => (c.id, c.name))))
        (ps.foldl scanStyleStep ⟨some [], some [], some [], some []⟩)).components) = none
  rw [foldl_scanVariableStep_components, foldl_scanStyleStep_components]
  rfl

/-- Witness for `C10_components_never_populated` at concrete inputs. -/
theorem C10_components_never_populated_witness :
    (scanAllTokens [] [] []).components = none ∧
    determineCategory "Blue/500" "" ≠ TokenCategory.components :=
  ⟨C10_components_never_populated.2 [] [] [],
   C10_components_never_populated.1 "Blue/500" ""⟩

end Theorems

end DTM
